import Mathlib

/-!
# Verification of the danmaku2ass comment layout and rendering engine

This development gives a shallow embedding, in Lean 4, of the core of
`danmaku2ass.py`: the lane/row allocation algorithm (`ProcessComments`,
`TestFreeRows`, `FindAlternativeRow`, `MarkCommentRow`), the color
conversion (`ConvertColor`), the zoom/positioning helpers
(`GetZoomFactor`, `GetPosition`, `WriteCommentBilibiliPositioned`) and
the Flash rotation projection (`ConvertFlashRotation`), together with
theorems settling the specified properties of these functions.

Modelling conventions:
* Python floats are modelled by `ℚ` (exact rational arithmetic); the
  trigonometric function `ConvertFlashRotation` is modelled over `ℝ`.
* Python exceptions are modelled by `Except PyExc` / explicit error
  fields; `try/except` blocks become explicit tests on the raised tag.
* String formatting of the emitted ASS "Dialogue" lines is abstracted
  into structured `Event` values (one value per `f.write` of an event
  line); the color-override fragment of the styling code, which one of
  the properties is about, is modelled literally (`commentColorStyles`).
-/

/-- Python exception kinds relevant to the program.  `jsonDecodeError`
stands for `json.JSONDecodeError`, which is a subclass of `ValueError`. -/
inductive PyExc where
  | valueError
  | typeError
  | indexError
  | zeroDivisionError
  | jsonDecodeError
  deriving DecidableEq, Repr

/-- Exceptions caught by `except (IndexError, ValueError)` in
`WriteCommentBilibiliPositioned` (a `json.JSONDecodeError` is a
`ValueError`). -/
def PyExc.isIndexOrValueError : PyExc → Bool
  | .valueError => true
  | .indexError => true
  | .jsonDecodeError => true
  | _ => false

/-- The `pos` field of a comment tuple (`c[4]`): an `int` mode
(0 scroll, 1 bottom, 2 top, 3 reverse scroll), the string `"bilipos"`,
or anything else (reported as an invalid comment). -/
inductive PosVal where
  | mode (m : Fin 4)
  | bilipos
  | invalid
  deriving DecidableEq, Repr

/-- A normalized comment record: the tuple
`(timeline, timestamp, no, comment, pos, color, size, height, width)`
yielded by the comment readers.  Fields keep the tuple order of the
source (`time` is `c[0]`, …, `width` is `c[8]`). -/
structure Comment where
  time : ℚ
  timestamp : ℤ
  no : ℕ
  text : String
  pos : PosVal
  color : ℕ
  size : ℚ
  height : ℚ
  width : ℚ
  deriving DecidableEq, Repr

/-- Python 3 `round` on a rational: round half to even. -/
def pyRound (q : ℚ) : ℤ :=
  if q - ⌊q⌋ < 1/2 then ⌊q⌋
  else if q - ⌊q⌋ > 1/2 then ⌊q⌋ + 1
  else if Even ⌊q⌋ then ⌊q⌋ else ⌊q⌋ + 1

/-- Python `int()` truncation of a float toward zero. -/
def pyTrunc (q : ℚ) : ℤ :=
  if q < 0 then -⌊-q⌋ else ⌊q⌋

/-- Uppercase hexadecimal digit. -/
def hexChar (n : ℕ) : Char :=
  if n < 10 then Char.ofNat (48 + n) else Char.ofNat (55 + n)

/-- Two-digit uppercase hexadecimal rendering of a byte, the `"%02X"`
format for values in `[0, 255]`. -/
def hex2 (n : ℕ) : String :=
  String.mk [hexChar (n / 16 % 16), hexChar (n % 16)]

/-- `ClipByte` from `ConvertColor`:
`lambda x: 255 if x > 255 else 0 if x < 0 else round(x)`. -/
def ClipByte (x : ℚ) : ℤ :=
  if x > 255 then 255 else if x < 0 then 0 else pyRound x

/-- `ConvertColor(RGB, width=1280, height=576)` from the source.  Pure
black and white are identities; otherwise the BGR channel swap is used
when `width < 1280 and height < 576`, else the BT.601→BT.709 matrix
with each channel clipped to `[0, 255]`. -/
def ConvertColor (RGB : ℕ) (width : ℤ := 1280) (height : ℤ := 576) : String :=
  if RGB = 0x000000 then "000000"
  else if RGB = 0xFFFFFF then "FFFFFF"
  else
    let R : ℕ := (RGB >>> 16) &&& 0xFF
    let G : ℕ := (RGB >>> 8) &&& 0xFF
    let B : ℕ := RGB &&& 0xFF
    if width < 1280 ∧ height < 576 then
      hex2 B ++ hex2 G ++ hex2 R
    else
      hex2 (ClipByte ((R : ℚ) * 0.00956384088080656 + (G : ℚ) * 0.03217254540203729 + (B : ℚ) * 0.95826361371715607)).toNat
      ++ hex2 (ClipByte ((R : ℚ) * (-0.10493933142075390) + (G : ℚ) * 1.17231478191855154 + (B : ℚ) * (-0.06737545049779757))).toNat
      ++ hex2 (ClipByte ((R : ℚ) * 0.91348912373987645 + (G : ℚ) * 0.07858536372532510 + (B : ℚ) * 0.00792551253479842)).toNat

/-- Spec-side definition (from the spec's words): the "straight
channel-order swap" output for a 24-bit color, `BB GG RR`. -/
def specSwapColor (RGB : ℕ) : String :=
  hex2 (RGB &&& 0xFF) ++ hex2 ((RGB >>> 8) &&& 0xFF) ++ hex2 ((RGB >>> 16) &&& 0xFF)

/-- Spec-side clamp of a channel value to `[0, 255]` (after rounding). -/
def specClampByte (x : ℚ) : ℤ :=
  max 0 (min 255 (pyRound x))

/-- Spec-side definition (from the spec's words): the BT.601→BT.709
matrix conversion with each output channel clamped to `[0, 255]`. -/
def specMatrixColor (RGB : ℕ) : String :=
  let R : ℕ := (RGB >>> 16) &&& 0xFF
  let G : ℕ := (RGB >>> 8) &&& 0xFF
  let B : ℕ := RGB &&& 0xFF
  hex2 (specClampByte ((R : ℚ) * 0.00956384088080656 + (G : ℚ) * 0.03217254540203729 + (B : ℚ) * 0.95826361371715607)).toNat
  ++ hex2 (specClampByte ((R : ℚ) * (-0.10493933142075390) + (G : ℚ) * 1.17231478191855154 + (B : ℚ) * (-0.06737545049779757))).toNat
  ++ hex2 (specClampByte ((R : ℚ) * 0.91348912373987645 + (G : ℚ) * 0.07858536372532510 + (B : ℚ) * 0.00792551253479842)).toNat

lemma pyRound_ge_floor (q : ℚ) : ⌊q⌋ ≤ pyRound q := by
  unfold pyRound
  split_ifs <;> omega

lemma pyRound_le_floor_add_one (q : ℚ) : pyRound q ≤ ⌊q⌋ + 1 := by
  unfold pyRound
  split_ifs <;> omega

lemma clipByte_eq_specClampByte (x : ℚ) : ClipByte x = specClampByte x := by
  have h1 := pyRound_ge_floor x
  have h2 := pyRound_le_floor_add_one x
  unfold ClipByte specClampByte
  by_cases hgt : x > 255
  · have hf : (255 : ℤ) ≤ ⌊x⌋ := Int.le_floor.mpr (by push_cast; linarith)
    simp only [hgt, if_true]
    omega
  · by_cases hlt : x < 0
    · have hf : ⌊x⌋ < 0 := Int.floor_lt.mpr (by push_cast; linarith)
      simp only [hgt, if_false, hlt, if_true]
      omega
    · push_neg at hgt hlt
      have hf0 : 0 ≤ ⌊x⌋ := Int.floor_nonneg.mpr hlt
      have hf255 : ⌊x⌋ ≤ 255 := by
        have := Int.floor_le_floor hgt
        simpa using this
      have hub : pyRound x ≤ 255 := by
        by_cases hf : ⌊x⌋ = 255
        · have hx : x = 255 := by
            have hle : (255 : ℚ) ≤ x := by
              have := Int.floor_le x
              rw [hf] at this
              push_cast at this
              linarith
            linarith
          rw [hx]
          unfold pyRound
          norm_num
        · omega
      have hgt' : ¬ x > 255 := not_lt.mpr hgt
      have hlt' : ¬ x < 0 := not_lt.mpr hlt
      simp only [hgt', if_false, hlt', if_false]
      omega

/-- The `WriteComment` color-override fragment (source lines 423-426):
the resolution arguments of `ConvertColor` are omitted, so its defaults
apply. -/
def commentColorStyles (color : ℕ) : List String :=
  if color ≠ 0xFFFFFF then
    ["\\c&H" ++ ConvertColor color ++ "&"]
      ++ (if color = 0x000000 then ["\\3c&HFFFFFF&"] else [])
  else []

/-- The `WriteCommentBilibiliPositioned` color-override fragment
(source lines 150-153); identical shape, also calling `ConvertColor`
with its default resolution arguments. -/
def biliposColorStyles (color : ℕ) : List String :=
  if color ≠ 0xFFFFFF then
    ["\\c&H" ++ ConvertColor color ++ "&"]
      ++ (if color = 0x000000 then ["\\3c&HFFFFFF&"] else [])
  else []

example : ConvertColor 0xFF0000 1280 100 = "0200E9" := by with_unfolding_all decide
example : ConvertColor 0xFF0000 100 100 = "0000FF" := by with_unfolding_all decide

/-- **C7, counterexample.**  The claim states that for a non-black,
non-white color the channel swap is returned whenever the output
resolution is not at least 1280×576.  At resolution 1280×100 (not at
least 1280×576 since 100 < 576) the code nevertheless takes the matrix
branch, because its test is `width < 1280 and height < 576`: for pure
red the result differs from the channel swap. -/
theorem c7_counterexample :
    ConvertColor 0xFF0000 1280 100 ≠ specSwapColor 0xFF0000 := by
  with_unfolding_all decide

/-- **C7, amended.**  `ConvertColor` returns `"000000"`/`"FFFFFF"` for
pure black/white at every resolution; for every other 24-bit RGB input
it returns the clamped BT.601→BT.709 matrix conversion exactly when
NOT both `width < 1280` and `height < 576` (i.e. the straight channel
swap is used only when both dimensions are below the 1280×576 SD
threshold). -/
theorem c7_convertColor (RGB : ℕ) (width height : ℤ) (h24 : RGB < 0x1000000) :
    ConvertColor RGB width height =
      if RGB = 0x000000 then "000000"
      else if RGB = 0xFFFFFF then "FFFFFF"
      else if width < 1280 ∧ height < 576 then specSwapColor RGB
      else specMatrixColor RGB := by
  unfold ConvertColor specSwapColor specMatrixColor
  by_cases h0 : RGB = 0x000000
  · simp [h0]
  · by_cases h1 : RGB = 0xFFFFFF
    · simp [h0, h1]
    · by_cases h2 : width < 1280 ∧ height < 576
      · simp [h0, h1, h2]
      · simp [h0, h1, h2, clipByte_eq_specClampByte]

/-- Witness for `c7_convertColor` at a concrete input. -/
theorem c7_convertColor_witness :
    (0x123456 : ℕ) < 0x1000000 ∧
      ConvertColor 0x123456 100 100 =
        if (0x123456 : ℕ) = 0x000000 then "000000"
        else if (0x123456 : ℕ) = 0xFFFFFF then "FFFFFF"
        else if (100 : ℤ) < 1280 ∧ (100 : ℤ) < 576 then specSwapColor 0x123456
        else specMatrixColor 0x123456 :=
  ⟨by decide, c7_convertColor 0x123456 100 100 (by decide)⟩

example : specMatrixColor 0x123456 ≠ specSwapColor 0x123456 := by
  with_unfolding_all decide

/-- **C10.**  The renderer's calls to `ConvertColor` (in `WriteComment`
and `WriteCommentBilibiliPositioned`) omit the resolution arguments, so
the defaults 1280×576 apply and, for every non-black non-white 24-bit
color, the emitted color override carries the BT.601→BT.709 matrix
conversion; the sub-SD channel-swap branch is unreachable from the
renderer. -/
theorem c10_renderer_color (color : ℕ) (h24 : color < 0x1000000)
    (h0 : color ≠ 0x000000) (h1 : color ≠ 0xFFFFFF) :
    commentColorStyles color = ["\\c&H" ++ specMatrixColor color ++ "&"] ∧
    biliposColorStyles color = ["\\c&H" ++ specMatrixColor color ++ "&"] := by
  have hcc : ConvertColor color = specMatrixColor color := by
    unfold ConvertColor specMatrixColor
    simp [h0, h1, clipByte_eq_specClampByte]
  constructor
  · unfold commentColorStyles
    simp [h0, h1, hcc]
  · unfold biliposColorStyles
    simp [h0, h1, hcc]

/-- Witness for `c10_renderer_color` at a concrete input. -/
theorem c10_renderer_color_witness :
    ((0xFF0000 : ℕ) < 0x1000000 ∧ (0xFF0000 : ℕ) ≠ 0x000000 ∧ (0xFF0000 : ℕ) ≠ 0xFFFFFF) ∧
      (commentColorStyles 0xFF0000 = ["\\c&H" ++ specMatrixColor 0xFF0000 ++ "&"] ∧
       biliposColorStyles 0xFF0000 = ["\\c&H" ++ specMatrixColor 0xFF0000 ++ "&"]) :=
  ⟨by decide, c10_renderer_color 0xFF0000 (by decide) (by decide) (by decide)⟩

/-! ## JSON values and Python conversions for positioned comments -/

/-- A decoded JSON value, as produced by `json.loads` for a positioned
comment payload.  `jint`/`jfloat` keep Python's `int`/`float`
distinction, which `GetPosition` branches on.  (JSON objects and
booleans are not needed by any property and are omitted.) -/
inductive JsonVal where
  | jint (n : ℤ)
  | jfloat (q : ℚ)
  | jstr (s : String)
  | jnull
  | jarr (l : List JsonVal)
  deriving Repr

/-- Digits of a numeric string, most significant first. -/
def digitsToNat (l : List Char) : ℕ :=
  l.foldl (fun a c => a * 10 + (c.toNat - 48)) 0

/-- Nonempty and all decimal digits. -/
def allDigits (l : List Char) : Bool :=
  !l.isEmpty && l.all Char.isDigit

/-- Python `int(s)` on a string: an optional sign followed by digits
(no decimal point). -/
def parseIntStr (s : String) : Option ℤ :=
  match s.toList with
  | '-' :: rest => if allDigits rest then some (-(digitsToNat rest : ℤ)) else none
  | '+' :: rest => if allDigits rest then some (digitsToNat rest : ℤ) else none
  | l => if allDigits l then some (digitsToNat l : ℤ) else none

/-- Python `float(s)` on an unsigned decimal string: `d*`, `d*.d*` with
at least one digit (exponent forms are not exercised by any property). -/
def parseUnsignedFloat (s : String) : Option ℚ :=
  match s.splitOn (".") with
  | [a] => if allDigits a.toList then some ((digitsToNat a.toList : ℚ)) else none
  | [a, b] =>
      if a.toList.all Char.isDigit && b.toList.all Char.isDigit
          && (!a.toList.isEmpty || !b.toList.isEmpty) then
        some ((digitsToNat a.toList : ℚ) + (digitsToNat b.toList : ℚ) / 10 ^ b.length)
      else none
  | _ => none

/-- Python `float(s)` on a string, with optional sign. -/
def parseFloatStr (s : String) : Option ℚ :=
  match s.toList with
  | '-' :: rest => (parseUnsignedFloat (String.mk rest)).map Neg.neg
  | '+' :: rest => parseUnsignedFloat (String.mk rest)
  | _ => parseUnsignedFloat s

/-- Exact finite decimal rendering of a rational, used to model Python
`str()` on a float value (every Python float is a dyadic rational, so
the finite expansion exists; the `"/"` fallback is unreachable for
float-valued inputs). -/
def decimalOfRat (q : ℚ) : String :=
  match (List.range 21).find? (fun k => (q * (10 : ℚ) ^ k).den = 1) with
  | some 0 => toString q.num ++ (".0")
  | some k =>
      let a : ℕ := ((q * (10 : ℚ) ^ k).num).natAbs
      let fs := toString (a % 10 ^ k)
      (if q < 0 then "-" else "") ++ toString (a / 10 ^ k) ++ (".")
        ++ String.mk (List.replicate (k - fs.length) '0') ++ fs
  | none => toString q.num ++ ("/") ++ toString q.den

/-- Python `str()` of a decoded JSON value.  For arrays, only the facts
that the rendering starts with a bracket and never parses as a number
are observable in this model (it is split on `"-"` and fed to
`float()`), so a fixed bracketed stand-in is used. -/
def pyStr : JsonVal → String
  | .jstr s => s
  | .jint n => toString n
  | .jfloat q => decimalOfRat q
  | .jnull => "None"
  | .jarr _ => "[?]"

/-- `safe_list.get(index, default)`: the element when the index is in
range, the default otherwise. -/
def safeGet {α : Type} (l : List α) (i : ℕ) (d : α) : α :=
  (l.get? i).getD d

/-- Python `int()` of a decoded JSON value: ints pass through, floats
truncate toward zero, numeric strings parse (else `ValueError`), and
non-numeric non-string values raise `TypeError`. -/
def pyIntJ : JsonVal → Except PyExc ℤ
  | .jint n => .ok n
  | .jfloat q => .ok (pyTrunc q)
  | .jstr s =>
      match parseIntStr s with
      | some n => .ok n
      | none => .error .valueError
  | .jnull => .error .typeError
  | .jarr _ => .error .typeError

/-- Python `float()` of a decoded JSON value. -/
def pyFloatJ : JsonVal → Except PyExc ℚ
  | .jint n => .ok (n : ℚ)
  | .jfloat q => .ok q
  | .jstr s =>
      match parseFloatStr s with
      | some q => .ok q
      | none => .error .valueError
  | .jnull => .error .typeError
  | .jarr _ => .error .typeError

/-- Python `float()` of a string. -/
def pyFloatStr (s : String) : Except PyExc ℚ :=
  match parseFloatStr s with
  | some q => .ok q
  | none => .error .valueError

/-- `GetZoomFactor(SourceSize, TargetSize)` (source lines 186-207),
without the process-wide memoization (the cache is semantically
transparent: the function is pure).  Every `ZeroDivisionError` site of
the source is guarded and yields the fallback `(1, 0, 0)`. -/
def GetZoomFactor (S T : ℚ × ℚ) : ℚ × ℚ × ℚ :=
  if S.2 = 0 ∨ T.2 = 0 then (1, 0, 0)
  else
    let SA := S.1 / S.2
    let TA := T.1 / T.2
    if TA < SA then
      if S.1 = 0 then (1, 0, 0)
      else (T.1 / S.1, 0, (T.2 - T.1 / SA) / 2)
    else if TA > SA then
      (T.2 / S.2, (T.1 - T.2 * SA) / 2, 0)
    else
      if S.1 = 0 then (1, 0, 0)
      else (T.1 / S.1, 0, 0)

/-- `BiliPlayerSize = (672, 438)` (Bilibili player version 2014). -/
def BiliPlayerSize : ℚ × ℚ := (672, 438)

/-- `GetPosition(InputPos, isHeight)` from
`WriteCommentBilibiliPositioned`: ints map affinely through the zoom
factor; floats ≤ 1 are viewport fractions; strings are converted with
`int()` then `float()` (`ValueError` if neither parses); other values
raise `TypeError` (from `int(...)`, not caught by the inner
`except ValueError`). -/
def GetPosition (zf : ℚ × ℚ × ℚ) (v : JsonVal) (isHeight : Bool) : Except PyExc ℚ :=
  let off := if isHeight then zf.2.2 else zf.2.1
  let ps := if isHeight then BiliPlayerSize.2 else BiliPlayerSize.1
  match v with
  | .jint n => .ok (zf.1 * n + off)
  | .jfloat q => if q > 1 then .ok (zf.1 * q + off) else .ok (ps * zf.1 * q + off)
  | .jstr s =>
      match parseIntStr s with
      | some n => .ok (zf.1 * n + off)
      | none =>
          match parseFloatStr s with
          | some q => if q > 1 then .ok (zf.1 * q + off) else .ok (ps * zf.1 * q + off)
          | none => .error .valueError
  | .jnull => .error .typeError
  | .jarr _ => .error .typeError

/-- An emitted event line (`f.write("Dialogue: ...")`): either a regular
lane comment placed at a row, or a positioned comment with its computed
lifetime.  The formatted override/text strings are abstracted; the
color fragment is modelled by `commentColorStyles`/`biliposColorStyles`. -/
inductive Event where
  | regular (c : Comment) (row : ℕ)
  | bilip (c : Comment) (lifetime : ℚ)
  deriving DecidableEq, Repr

/-- The `try` body of `WriteCommentBilibiliPositioned(f, c, width,
height, styleid)` (source lines 109-176), performing every
payload-field access and numeric conversion in source order and
returning the computed `lifetime` (the timing datum of the emitted
event).  The construction of the ASS override string — including the
two `ConvertFlashRotation` calls, which are total and never raise —
only affects formatted text and is not part of the event data.
`json.loads` is standard-library code, passed in as `jsonLoads`
(raising `json.JSONDecodeError`, a `ValueError`, on undecodable
input); `safe_list(x)` raises `TypeError` when `x` is not a JSON
array. -/
def biliBody (jsonLoads : String → Except PyExc JsonVal)
    (width height : ℤ) (c : Comment) : Except PyExc ℚ := do
    let v ← jsonLoads c.text
    let args ← match v with
      | .jarr l => Except.ok l
      | _ => Except.error PyExc.typeError
    let zf := GetZoomFactor BiliPlayerSize ((width : ℚ), (height : ℚ))
    let _text ← match args.get? 4 with
      | some v4 => Except.ok (pyStr v4)
      | none => Except.error PyExc.indexError
    let fx0 := safeGet args 0 (.jint 0)
    let fy0 := safeGet args 1 (.jint 0)
    let tx0 := safeGet args 7 fx0
    let ty0 := safeGet args 8 fy0
    let _fx ← GetPosition zf fx0 false
    let _fy ← GetPosition zf fy0 true
    let _tx ← GetPosition zf tx0 false
    let _ty ← GetPosition zf ty0 true
    let alpha := (pyStr (safeGet args 2 (.jstr "1"))).splitOn ("-")
    let fa ← match alpha.get? 0 with
      | some s => pyFloatStr s
      | none => Except.ok 1
    let _ta ← match alpha.get? 1 with
      | some s => pyFloatStr s
      | none => Except.ok fa
    let _rz ← pyIntJ (safeGet args 5 (.jint 0))
    let _ry ← pyIntJ (safeGet args 6 (.jint 0))
    let lifetime ← pyFloatJ (safeGet args 3 (.jint 4500))
    let _dur ← match args.get? 9 with
      | some v9 => pyIntJ v9
      | none => Except.ok (pyTrunc (lifetime * 1000))
    let _dly ← pyIntJ (safeGet args 10 (.jint 0))
    pure lifetime

/-- The exception-handling shell of `WriteCommentBilibiliPositioned`:
an event line carrying the computed lifetime on success, a warning
(and no event) when an `IndexError`/`ValueError` is caught, and a
propagated exception otherwise. -/
def WriteCommentBilibiliPositioned (jsonLoads : String → Except PyExc JsonVal)
    (width height : ℤ) (c : Comment) : Except PyExc (Option Event) :=
  match biliBody jsonLoads width height c with
  | .ok lifetime => .ok (some (Event.bilip c lifetime))
  | .error e => if e.isIndexOrValueError then .ok none else .error e

/-- Every event emitted by the positioned-comment writer is a `bilip`
event for that comment. -/
lemma writeBili_shape (jsonLoads : String → Except PyExc JsonVal)
    (width height : ℤ) (c : Comment) (ev : Event)
    (h : WriteCommentBilibiliPositioned jsonLoads width height c = .ok (some ev)) :
    ∃ lt, ev = .bilip c lt := by
  unfold WriteCommentBilibiliPositioned at h
  cases hb : biliBody jsonLoads width height c with
  | ok lt =>
      rw [hb] at h
      dsimp only at h
      exact ⟨lt, by simpa using h.symm⟩
  | error e =>
      rw [hb] at h
      dsimp only at h
      by_cases he : e.isIndexOrValueError = true
      · rw [if_pos he] at h
        simp at h
      · rw [if_neg he] at h
        simp at h

/-! ## The lane grid and the allocator -/

/-- One lane array: a cell per pixel row, holding the current occupant. -/
abbrev Grid := List (Option Comment)

/-- `rows = [[None] * (height - bottomReserved + 1) for i in range(4)]`
(source line 275).  Python builds four distinct lists; in this pure
model replication is equivalent. -/
def mkRows (height bottomReserved : ℤ) : List Grid :=
  List.replicate 4 (List.replicate (height - bottomReserved + 1).toNat none)

/-- The cell of a lane array at a row index (`rows[c[4]][row]`);
out-of-range reads do not occur at the call sites that use this
accessor (the loops bound the index), so the `none` default is inert. -/
def cell (grid : Grid) (r : ℕ) : Option Comment :=
  grid.getD r none

/-- Blocking test for `Top`/`Bottom` comments (source line 322): a cell
blocks when occupied by `o` with `o[0] + duration_still > c[0]`. -/
def staticBlocks (duration_still : ℚ) (c : Comment) : Option Comment → Bool
  | none => false
  | some o => decide (o.time + duration_still > c.time)

/-- `thresholdTime` for scroll comments (source lines 327-330):
`c[0] - duration_marquee * (1 - width / (c[8] + width))`, with the
`ZeroDivisionError` fallback `c[0] - duration_marquee`. -/
def thresholdTime (width : ℤ) (duration_marquee : ℚ) (c : Comment) : ℚ :=
  if c.width + (width : ℚ) = 0 then c.time - duration_marquee
  else c.time - duration_marquee * (1 - (width : ℚ) / (c.width + (width : ℚ)))

/-- Blocking test for scroll comments (source lines 334-341): a cell
blocks when occupied by `o` with `o[0] > thresholdTime` or
`o[0] + o[8] * duration_marquee / (o[8] + width) > c[0]`.  The `or`
short-circuits before the division, and a `ZeroDivisionError` in the
second disjunct is caught by `except ZeroDivisionError: pass` (the cell
is then not blocking), hence the guard on the denominator. -/
def scrollBlocks (width : ℤ) (duration_marquee : ℚ) (c : Comment) (threshold : ℚ) :
    Option Comment → Bool
  | none => false
  | some o =>
      decide (o.time > threshold ∨
        (o.width + (width : ℚ) ≠ 0 ∧
          o.time + o.width * duration_marquee / (o.width + (width : ℚ)) > c.time))

/-- The shared shape of the two scanning loops of `TestFreeRows`
(source lines 319-325 and 331-343): starting at `row` with `res` rows
already counted and `target` the last examined cell, count while
`row < rowmax and res < c[7]`; a cell is re-tested only when it differs
from `target` (the `targetRow` caching), and the loop breaks at the
first blocking cell.  The loop is realized by structural recursion on
the remaining row budget `(rowmax - row).toNat` (which strictly
decreases): with this exact budget the zero-fuel case is reached only
when the guard `row < rowmax` is already false, so `tfrLoop` computes
exactly the source's `while` loop. -/
def tfrGo (grid : Grid) (blocks : Option Comment → Bool) (hq : ℚ) (rowmax : ℤ) :
    ℕ → ℕ → ℕ → Option Comment → ℕ
  | 0, _, res, _ => res
  | fuel + 1, row, res, target =>
    if (row : ℤ) < rowmax ∧ (res : ℚ) < hq then
      if target ≠ cell grid row then
        if blocks (cell grid row) then res
        else tfrGo grid blocks hq rowmax fuel (row + 1) (res + 1) (cell grid row)
      else tfrGo grid blocks hq rowmax fuel (row + 1) (res + 1) target
    else res

def tfrLoop (grid : Grid) (blocks : Option Comment → Bool) (hq : ℚ) (rowmax : ℤ)
    (row res : ℕ) (target : Option Comment) : ℕ :=
  tfrGo grid blocks hq rowmax (rowmax - row).toNat row res target

/-- `TestFreeRows(rows, c, row, width, height, bottomReserved,
duration_marquee, duration_still)` (source lines 314-344).  Only
int-mode comments reach this function in `ProcessComments`. -/
def TestFreeRows (rows : List Grid) (c : Comment) (row : ℕ)
    (width height bottomReserved : ℤ) (duration_marquee duration_still : ℚ) : ℕ :=
  match c.pos with
  | .mode m =>
      let grid := rows.getD m.val []
      if m.val = 1 ∨ m.val = 2 then
        tfrLoop grid (staticBlocks duration_still c) c.height (height - bottomReserved) row 0 none
      else
        tfrLoop grid
          (scrollBlocks width duration_marquee c (thresholdTime width duration_marquee c))
          c.height (height - bottomReserved) row 0 none
  | _ => 0

/-- The marking loop of `MarkCommentRow`: write `c` into cells
`i, i+1, …` for `k` steps, stopping at the first out-of-range index
(the `except IndexError: pass` keeps all earlier writes). -/
def markLoop (c : Comment) : Grid → ℕ → ℕ → Grid
  | grid, _, 0 => grid
  | grid, i, k + 1 =>
      if i < grid.length then markLoop c (grid.set i (some c)) (i + 1) k else grid

/-- `MarkCommentRow(rows, c, row)` (source lines 357-362): mark
`math.ceil(c[7])` consecutive cells of the comment's lane array. -/
def MarkCommentRow (rows : List Grid) (c : Comment) (row : ℕ) : List Grid :=
  match c.pos with
  | .mode m => rows.set m.val (markLoop c (rows.getD m.val []) row (Int.toNat ⌈c.height⌉))
  | _ => rows

/-- Time of the occupant of `grid[r]`; the `0` default is unreachable
from `FindAlternativeRow` (the best row `res` always holds an occupant
when it is compared). -/
def occupantTime (grid : Grid) (r : ℕ) : ℚ :=
  ((cell grid r).map Comment.time).getD 0

/-- The scanning loop of `FindAlternativeRow`: return the first empty
row below `bound`, else the row with the earliest-started occupant
(first wins on ties).  Structural recursion on the exact remaining
budget `bound - row`; the zero-fuel case is reached only when
`row < bound` is already false. -/
def farGo (grid : Grid) (bound : ℕ) : ℕ → ℕ → ℕ → ℕ
  | 0, _, res => res
  | fuel + 1, row, res =>
    if row < bound then
      match cell grid row with
      | none => row
      | some o =>
          if o.time < occupantTime grid res then farGo grid bound fuel (row + 1) row
          else farGo grid bound fuel (row + 1) res
    else res

def farLoop (grid : Grid) (bound : ℕ) (row res : ℕ) : ℕ :=
  farGo grid bound (bound - row) row res

/-- `FindAlternativeRow(rows, c, height, bottomReserved)` (source lines
347-354): scan rows in `range(height - bottomReserved - math.ceil(c[7]))`. -/
def FindAlternativeRow (rows : List Grid) (c : Comment) (height bottomReserved : ℤ) : ℕ :=
  match c.pos with
  | .mode m =>
      farLoop (rows.getD m.val []) (height - bottomReserved - ⌈c.height⌉).toNat 0 0
  | _ => 0

/-- Result of the row-scanning `while` loop of `ProcessComments`. -/
inductive PlaceRes where
  | placed (row : ℕ)
  | exhausted
  deriving DecidableEq, Repr

/-- The row-scanning `while` loop of `ProcessComments` (source lines
287-298): probe with `TestFreeRows`; place at the current row when the
free run is at least `c[7]`, else advance by `freerows or 1`; the
`while`'s `else` clause is the `exhausted` outcome.  Structural
recursion on the remaining iteration budget
`(⌈rowmax⌉ + 1 - row).toNat`: while the guard `row ≤ rowmax` holds this
budget is positive, and every iteration advances `row` by at least 1,
so the budget never runs out before the guard fails and `placeLoop`
computes exactly the source's `while` loop. -/
def placeGo (rows : List Grid) (c : Comment) (width height bottomReserved : ℤ)
    (duration_marquee duration_still : ℚ) : ℕ → ℕ → PlaceRes
  | 0, _ => .exhausted
  | fuel + 1, row =>
    if (row : ℚ) ≤ (height : ℚ) - (bottomReserved : ℚ) - c.height then
      let freerows := TestFreeRows rows c row width height bottomReserved duration_marquee duration_still
      if (freerows : ℚ) ≥ c.height then .placed row
      else placeGo rows c width height bottomReserved duration_marquee duration_still fuel
        (row + max freerows 1)
    else .exhausted

def placeLoop (rows : List Grid) (c : Comment) (width height bottomReserved : ℤ)
    (duration_marquee duration_still : ℚ) (row : ℕ) : PlaceRes :=
  placeGo rows c width height bottomReserved duration_marquee duration_still
    (⌈(height : ℚ) - (bottomReserved : ℚ) - c.height⌉ + 1 - row).toNat row

/-- The configuration surface of `ProcessComments` that affects events:
stage size, reserved bottom margin, the two duration constants, the
comment filters (injected predicates standing for the compiled regular
expressions), the `json.loads` decoder for positioned payloads, and the
reduction flag. -/
structure Cfg where
  width : ℤ
  height : ℤ
  bottomReserved : ℤ
  duration_marquee : ℚ
  duration_still : ℚ
  filters : List (String → Bool)
  jsonLoads : String → Except PyExc JsonVal
  reduced : Bool

/-- Run state: the lane grid, the emitted events in order, the number
of warnings logged, and whether any comment was force-placed through
`FindAlternativeRow` (a ghost flag recording that the fallback path
ran; the source has no such variable). -/
structure St where
  rows : List Grid
  events : List Event
  warns : ℕ
  fallback : Bool
  deriving DecidableEq, Repr

/-- Processing of one comment in the main loop of `ProcessComments`
(source lines 279-309): int-mode comments are filtered then placed
(scanning, else the non-reduced fallback), `"bilipos"` comments go to
`WriteCommentBilibiliPositioned` (whose uncaught exceptions abort the
run), and anything else logs a warning. -/
def step (cfg : Cfg) (st : St) (c : Comment) : St × Option PyExc :=
  match c.pos with
  | .mode _ =>
      if cfg.filters.any (fun f => f c.text) then (st, none)
      else
        match placeLoop st.rows c cfg.width cfg.height cfg.bottomReserved
            cfg.duration_marquee cfg.duration_still 0 with
        | .placed r =>
            ({ st with rows := MarkCommentRow st.rows c r,
                       events := st.events ++ [Event.regular c r] }, none)
        | .exhausted =>
            if cfg.reduced then (st, none)
            else
              let r := FindAlternativeRow st.rows c cfg.height cfg.bottomReserved
              ({ st with rows := MarkCommentRow st.rows c r,
                         events := st.events ++ [Event.regular c r],
                         fallback := true }, none)
  | .bilipos =>
      match WriteCommentBilibiliPositioned cfg.jsonLoads cfg.width cfg.height c with
      | .ok (some ev) => ({ st with events := st.events ++ [ev] }, none)
      | .ok none => ({ st with warns := st.warns + 1 }, none)
      | .error e => (st, some e)
  | .invalid => ({ st with warns := st.warns + 1 }, none)

/-- The main loop of `ProcessComments` over the comment list; an
uncaught exception aborts the run, keeping the events already written. -/
def processList (cfg : Cfg) : St → List Comment → St × Option PyExc
  | st, [] => (st, none)
  | st, c :: rest =>
      match (step cfg st c).2 with
      | none => processList cfg (step cfg st c).1 rest
      | some e => ((step cfg st c).1, some e)

/-- `ProcessComments` (source lines 258-311): create the lane grid and
fold the comments through `step`.  (The ASS header write, the progress
callback and the random style id do not affect which events are
emitted.) -/
def ProcessComments (cfg : Cfg) (comments : List Comment) : St × Option PyExc :=
  processList cfg ⟨mkRows cfg.height cfg.bottomReserved, [], 0, false⟩ comments

/-! ## Free-run characterization (C1, C8) -/

/-- Spec-side free-run scan: from `row`, while `row < rowmax` and fewer
than `hq` rows are counted, count a row exactly when its cell does not
satisfy the blocking predicate, stopping at the first blocking cell
(no `targetRow` caching). -/
def specGo (grid : Grid) (blocks : Option Comment → Bool) (hq : ℚ) (rowmax : ℤ) :
    ℕ → ℕ → ℕ → ℕ
  | 0, _, res => res
  | fuel + 1, row, res =>
    if (row : ℤ) < rowmax ∧ (res : ℚ) < hq then
      if blocks (cell grid row) then res
      else specGo grid blocks hq rowmax fuel (row + 1) (res + 1)
    else res

/-- Spec-side free run starting at `row` with nothing counted yet. -/
def specFreeRun (grid : Grid) (blocks : Option Comment → Bool) (hq : ℚ) (rowmax : ℤ)
    (row : ℕ) : ℕ :=
  specGo grid blocks hq rowmax (rowmax - row).toNat row 0

/-- The `targetRow` caching of `TestFreeRows` is transparent: as long as
the cached cell is known non-blocking, the cached loop computes the
plain per-row scan. -/
lemma tfrGo_eq_specGo (grid : Grid) (blocks : Option Comment → Bool) (hq : ℚ)
    (rowmax : ℤ) :
    ∀ (fuel row res : ℕ) (target : Option Comment), blocks target = false →
      tfrGo grid blocks hq rowmax fuel row res target =
        specGo grid blocks hq rowmax fuel row res := by
  intro fuel
  induction fuel with
  | zero => intro row res target _; rfl
  | succ n ih =>
      intro row res target htarget
      unfold tfrGo specGo
      by_cases hg : (row : ℤ) < rowmax ∧ (res : ℚ) < hq
      · rw [if_pos hg, if_pos hg]
        by_cases hne : target ≠ cell grid row
        · rw [if_pos hne]
          by_cases hb : blocks (cell grid row) = true
          · rw [if_pos hb, if_pos hb]
          · rw [if_neg hb, if_neg hb]
            exact ih (row + 1) (res + 1) _ (by simpa using hb)
        · rw [if_neg hne]
          have heq : target = cell grid row := not_not.mp hne
          have hb : ¬ (blocks (cell grid row) = true) := by
            rw [← heq, htarget]
            simp
          rw [if_neg hb]
          exact ih (row + 1) (res + 1) target htarget
      · rw [if_neg hg, if_neg hg]

/-- Two blocking predicates that agree on every cell of the grid (and
on the empty cell) induce the same scan. -/
lemma specGo_congr (grid : Grid) (p q : Option Comment → Bool) (hq : ℚ) (rowmax : ℤ)
    (hpq : ∀ r : ℕ, p (cell grid r) = q (cell grid r)) :
    ∀ (fuel row res : ℕ),
      specGo grid p hq rowmax fuel row res = specGo grid q hq rowmax fuel row res := by
  intro fuel
  induction fuel with
  | zero => intro row res; rfl
  | succ n ih =>
      intro row res
      unfold specGo
      by_cases hg : (row : ℤ) < rowmax ∧ (res : ℚ) < hq
      · rw [if_pos hg, if_pos hg, hpq row]
        by_cases hb : q (cell grid row) = true
        · rw [if_pos hb, if_pos hb]
        · rw [if_neg hb, if_neg hb]
          exact ih (row + 1) (res + 1)
      · rw [if_neg hg, if_neg hg]

/-- A cell that holds an occupant holds a member of the lane array. -/
lemma cell_some_mem (grid : Grid) (r : ℕ) (o : Comment)
    (h : cell grid r = some o) : some o ∈ grid := by
  unfold cell List.getD at h
  cases h' : grid.get? r with
  | none => rw [h'] at h; simp at h
  | some x =>
      rw [h'] at h
      simp at h
      subst h
      exact List.get?_mem h'

/-- Spec-side per-occupant blocking predicate of the scroll collision
rule, as claimed: rule (a) `o.time > c.time - dur * (1 - W/(c.width+W))`
or rule (b) `o.time + o.width * dur / (o.width + W) > c.time`. -/
def c1Blocks (width : ℤ) (duration_marquee : ℚ) (c : Comment) : Option Comment → Bool
  | none => false
  | some o =>
      decide (o.time > c.time - duration_marquee * (1 - (width : ℚ) / (c.width + (width : ℚ))) ∨
        o.time + o.width * duration_marquee / (o.width + (width : ℚ)) > c.time)

/-- **C1.**  For a scroll-mode comment (mode 0 or 3), when no
denominator in the threshold arithmetic vanishes, `TestFreeRows`
computes exactly the free-run scan in which a row blocks iff its
occupant `o` satisfies (a) `o.time > c.time - dur*(1 - W/(c.width+W))`
or (b) `o.time + o.width*dur/(o.width+W) > c.time`; a row counts toward
the free run exactly when it is unoccupied or both are false. -/
theorem c1_scroll_blocking (rows : List Grid) (c : Comment) (row : ℕ)
    (width height bottomReserved : ℤ) (dm ds : ℚ) (m : Fin 4)
    (hpos : c.pos = .mode m) (hm : m.val = 0 ∨ m.val = 3)
    (hcw : c.width + (width : ℚ) ≠ 0)
    (hocc : ∀ o : Comment, some o ∈ rows.getD m.val [] → o.width + (width : ℚ) ≠ 0) :
    TestFreeRows rows c row width height bottomReserved dm ds =
      specFreeRun (rows.getD m.val []) (c1Blocks width dm c) c.height
        (height - bottomReserved) row := by
  have hnot : ¬ (m.val = 1 ∨ m.val = 2) := by omega
  unfold TestFreeRows
  rw [hpos]
  simp only [hnot, if_false]
  unfold tfrLoop specFreeRun
  rw [tfrGo_eq_specGo _ _ _ _ _ _ _ none rfl]
  apply specGo_congr
  intro r
  cases h : cell (rows.getD m.val []) r with
  | none => rfl
  | some o =>
      have how := hocc o (cell_some_mem _ _ _ h)
      simp only [scrollBlocks, c1Blocks, thresholdTime, hcw, if_false]
      simp [how]

/-- Witness for `c1_scroll_blocking` at a concrete input: stage width 3,
occupant of width 2 and time 9 in row 0, candidate of width 1 and
time 10; the occupant is within its safety margin (9 > 10 - 5·(1-3/4)),
so the free run from row 0 is empty on both sides of the equation. -/
theorem c1_scroll_blocking_witness :
    TestFreeRows [[some ⟨9, 0, 0, "o", .mode 0, 1, 25, 1, 2⟩, none], [], [], []]
        ⟨10, 0, 1, "c", .mode 0, 1, 25, 1, 1⟩ 0 3 1 0 5 5 =
      specFreeRun [some ⟨9, 0, 0, "o", .mode 0, 1, 25, 1, 2⟩, none]
        (c1Blocks 3 5 ⟨10, 0, 1, "c", .mode 0, 1, 25, 1, 1⟩) 1 (1 - 0) 0 :=
  c1_scroll_blocking _ _ 0 3 1 0 5 5 0 rfl (Or.inl rfl)
    (by with_unfolding_all decide)
    (by
      intro o ho
      rcases List.mem_cons.mp ho with h | h
      · cases h
        with_unfolding_all decide
      · simp at h)

/-- C8 (amended) spec-side blocking predicate: a zero denominator in
rule (b) makes rule (b) not apply; a zero denominator in rule (a)'s
threshold replaces the travel factor `1 - W/(c.width+W)` by 1 (the
threshold becomes `c.time - duration_marquee`) and rule (a) still
applies. -/
def c8AmendedBlocks (width : ℤ) (dm : ℚ) (c : Comment) : Option Comment → Bool
  | none => false
  | some o =>
      decide (o.time > (if c.width + (width : ℚ) = 0 then c.time - dm
          else c.time - dm * (1 - (width : ℚ) / (c.width + (width : ℚ)))) ∨
        (o.width + (width : ℚ) ≠ 0 ∧
          o.time + o.width * dm / (o.width + (width : ℚ)) > c.time))

/-- C8 spec-side blocking predicate as claimed: a division by zero in
either rule makes the affected rule not apply (both rules guarded by
their denominators). -/
def c8ClaimBlocks (width : ℤ) (dm : ℚ) (c : Comment) : Option Comment → Bool
  | none => false
  | some o =>
      decide ((c.width + (width : ℚ) ≠ 0 ∧
          o.time > c.time - dm * (1 - (width : ℚ) / (c.width + (width : ℚ)))) ∨
        (o.width + (width : ℚ) ≠ 0 ∧
          o.time + o.width * dm / (o.width + (width : ℚ)) > c.time))

/-- **C8, counterexample.**  Stage width 0, candidate width 0 (so the
rule (a) threshold divides by zero), occupant width 0 (so rule (b)
divides by zero): the claim says neither rule applies and row 0 is
free, but the code replaces the threshold by `c.time - duration_marquee
= 5` and the occupant's time 8 exceeds it, so `TestFreeRows` reports a
zero free run where the claimed semantics reports a free run of 1. -/
theorem c8_counterexample :
    TestFreeRows [[some ⟨8, 0, 0, "o", .mode 0, 1, 25, 1, 0⟩, none], [], [], []]
        ⟨10, 0, 1, "c", .mode 0, 1, 25, 1, 0⟩ 0 0 1 0 5 5 = 0 ∧
      specFreeRun [some ⟨8, 0, 0, "o", .mode 0, 1, 25, 1, 0⟩, none]
        (c8ClaimBlocks 0 5 ⟨10, 0, 1, "c", .mode 0, 1, 25, 1, 0⟩) 1 (1 - 0) 0 = 1 := by
  constructor
  · with_unfolding_all decide
  · with_unfolding_all decide

/-- **C8, amended.**  A division by zero in the scroll threshold
arithmetic never raises to the caller, and `TestFreeRows` computes the
free-run scan with the following semantics: rule (b) does not apply
when its denominator `o.width + width` is zero, while a zero
denominator in rule (a) replaces the travel factor by 1 (threshold
`c.time - duration_marquee`) and rule (a) still applies. -/
theorem c8_divzero (rows : List Grid) (c : Comment) (row : ℕ)
    (width height bottomReserved : ℤ) (dm ds : ℚ) (m : Fin 4)
    (hpos : c.pos = .mode m) (hm : m.val = 0 ∨ m.val = 3) :
    TestFreeRows rows c row width height bottomReserved dm ds =
      specFreeRun (rows.getD m.val []) (c8AmendedBlocks width dm c) c.height
        (height - bottomReserved) row := by
  have hnot : ¬ (m.val = 1 ∨ m.val = 2) := by omega
  unfold TestFreeRows
  rw [hpos]
  simp only [hnot, if_false]
  unfold tfrLoop specFreeRun
  rw [tfrGo_eq_specGo _ _ _ _ _ _ _ none rfl]
  apply specGo_congr
  intro r
  cases h : cell (rows.getD m.val []) r with
  | none => rfl
  | some o => simp [scrollBlocks, c8AmendedBlocks, thresholdTime]

/-- Witness for `c8_divzero` at the concrete input of the
counterexample (both sides evaluate to 0 there). -/
theorem c8_divzero_witness :
    TestFreeRows [[some ⟨8, 0, 0, "o", .mode 0, 1, 25, 1, 0⟩, none], [], [], []]
        ⟨10, 0, 1, "c", .mode 0, 1, 25, 1, 0⟩ 0 0 1 0 5 5 =
      specFreeRun [some ⟨8, 0, 0, "o", .mode 0, 1, 25, 1, 0⟩, none]
        (c8AmendedBlocks 0 5 ⟨10, 0, 1, "c", .mode 0, 1, 25, 1, 0⟩) 1 (1 - 0) 0 :=
  c8_divzero _ _ 0 0 1 0 5 5 0 rfl (Or.inl rfl)

/-! ## Fallback row search (C2) and the lane grid (C9) -/

/-- Spec-side fallback row search, from the claim's words: among the
scanned rows `0, …, bound-1`, return the first completely empty row if
one exists, otherwise the row whose occupant has the minimum
`appearance_time` (the first such row when several achieve the
minimum). -/
def specAltSearch (grid : Grid) (bound : ℕ) : ℕ :=
  match (List.range bound).find? (fun r => (cell grid r).isNone) with
  | some r => r
  | none =>
      (List.range bound).foldl
        (fun best r => if occupantTime grid r < occupantTime grid best then r else best) 0

lemma farGo_eq (grid : Grid) (bound : ℕ) :
    ∀ (fuel row res : ℕ), fuel = bound - row →
      farGo grid bound fuel row res =
        match (List.range' row fuel).find? (fun r => (cell grid r).isNone) with
        | some r => r
        | none =>
            (List.range' row fuel).foldl
              (fun best r => if occupantTime grid r < occupantTime grid best then r else best)
              res := by
  intro fuel
  induction fuel with
  | zero => intro row res _; rfl
  | succ n ih =>
      intro row res hfuel
      have hrow : row < bound := by omega
      unfold farGo
      rw [if_pos hrow, List.range'_succ]
      cases hc : cell grid row with
      | none =>
          simp [List.find?_cons, hc]
      | some o =>
          have hocc : occupantTime grid row = o.time := by
            unfold occupantTime
            rw [hc]
            rfl
          simp only [List.find?_cons, hc, Option.isNone_some, List.foldl_cons]
          rw [hocc]
          by_cases hlt : o.time < occupantTime grid res
          · rw [if_pos hlt, if_pos hlt, ih (row + 1) row (by omega)]
          · rw [if_neg hlt, if_neg hlt, ih (row + 1) res (by omega)]

lemma farLoop_eq_specAltSearch (grid : Grid) (bound : ℕ) :
    farLoop grid bound 0 0 = specAltSearch grid bound := by
  unfold farLoop specAltSearch
  rw [farGo_eq grid bound (bound - 0) 0 0 rfl]
  rw [Nat.sub_zero, ← List.range_eq_range']

/-- **C2, counterexample.**  Usable height 2, a comment of height 1
(so the claim's `row_max = 2 - 1 = 1` and the claimed scan covers rows
0 and 1), row 0 occupied, row 1 empty: the claim predicts the first
empty row, 1, but `FindAlternativeRow` scans only
`range(2 - ceil(1)) = {0}` and returns 0. -/
theorem c2_counterexample :
    FindAlternativeRow [[], [some ⟨5, 0, 0, "o", .mode 1, 1, 25, 1, 1⟩, none, none], [], []]
        ⟨10, 0, 1, "c", .mode 1, 1, 25, 1, 1⟩ 2 0 = 0 ∧
      cell [some ⟨5, 0, 0, "o", .mode 1, 1, 25, 1, 1⟩, none, none] 1 = none ∧
      specAltSearch [some ⟨5, 0, 0, "o", .mode 1, 1, 25, 1, 1⟩, none, none]
        ((2 - 0 - ⌈(⟨10, 0, 1, "c", .mode 1, 1, 25, 1, 1⟩ : Comment).height⌉).toNat + 1) = 1 := by
  refine ⟨?_, ?_, ?_⟩ <;> with_unfolding_all decide

/-- **C2, amended.**  `FindAlternativeRow` scans the rows
`0, …, usable_height - ⌈c.height⌉ - 1` (the exclusive range
`range(height - bottomReserved - ceil(c.height))`, not the inclusive
`[0, row_max]`), and on that range returns the first completely empty
row if one exists, otherwise the row whose current occupant has the
minimum `appearance_time` among the scanned rows (first wins on ties). -/
theorem c2_find_alternative (rows : List Grid) (c : Comment) (height bottomReserved : ℤ)
    (m : Fin 4) (hpos : c.pos = .mode m) :
    FindAlternativeRow rows c height bottomReserved =
      specAltSearch (rows.getD m.val []) (height - bottomReserved - ⌈c.height⌉).toNat := by
  unfold FindAlternativeRow
  rw [hpos]
  exact farLoop_eq_specAltSearch _ _

/-- Witness for `c2_find_alternative`: usable height 3, rows 0 and 1
occupied (times 9 and 3), so both sides select row 1, the occupied row
with the earliest occupant. -/
theorem c2_find_alternative_witness :
    FindAlternativeRow
        [[], [some ⟨9, 0, 0, "a", .mode 1, 1, 25, 1, 1⟩,
              some ⟨3, 0, 0, "b", .mode 1, 1, 25, 1, 1⟩, none, none], [], []]
        ⟨10, 0, 1, "c", .mode 1, 1, 25, 1, 1⟩ 3 0 =
      specAltSearch
        [some ⟨9, 0, 0, "a", .mode 1, 1, 25, 1, 1⟩,
         some ⟨3, 0, 0, "b", .mode 1, 1, 25, 1, 1⟩, none, none]
        (3 - 0 - ⌈(⟨10, 0, 1, "c", .mode 1, 1, 25, 1, 1⟩ : Comment).height⌉).toNat :=
  c2_find_alternative _ _ 3 0 1 rfl

example :
    FindAlternativeRow
        [[], [some ⟨9, 0, 0, "a", .mode 1, 1, 25, 1, 1⟩,
              some ⟨3, 0, 0, "b", .mode 1, 1, 25, 1, 1⟩, none, none], [], []]
        ⟨10, 0, 1, "c", .mode 1, 1, 25, 1, 1⟩ 3 0 = 1 := by
  with_unfolding_all decide

/-- **C9, counterexample.**  At stage height 10 with no reserved
bottom, the claim says each lane array has length
`usable_height = 10`, but `[None] * (height - bottomReserved + 1)`
has length 11. -/
theorem c9_counterexample :
    ((mkRows 10 0).getD 0 []).length = 11 ∧ ((mkRows 10 0).getD 0 []).length ≠ 10 := by
  constructor <;> with_unfolding_all decide

/-- **C9, amended.**  `ProcessComments` creates exactly one lane array
per mode value (4 arrays), each of length `usable_height + 1 =
stage_height - bottom_reserved + 1`, and this grid is the initial state
of the fold that performs every placement and collision check. -/
theorem c9_lane_grid (height bottomReserved : ℤ) (g : ℕ) (hg : g < 4) :
    (mkRows height bottomReserved).length = 4 ∧
    ((mkRows height bottomReserved).getD g []).length = (height - bottomReserved + 1).toNat ∧
    ∀ (cfg : Cfg) (comments : List Comment),
      ProcessComments cfg comments =
        processList cfg ⟨mkRows cfg.height cfg.bottomReserved, [], 0, false⟩ comments := by
  refine ⟨by simp [mkRows], ?_, fun cfg comments => rfl⟩
  have hrepl : (mkRows height bottomReserved).getD g []
      = List.replicate (height - bottomReserved + 1).toNat none := by
    unfold mkRows
    rw [List.getD_eq_getElem?_getD, List.getElem?_replicate, if_pos hg]
    rfl
  rw [hrepl, List.length_replicate]

/-- Witness for `c9_lane_grid` at stage height 10, no reserved bottom,
lane 2. -/
theorem c9_lane_grid_witness :
    (2 : ℕ) < 4 ∧
      ((mkRows 10 0).length = 4 ∧
        ((mkRows 10 0).getD 2 []).length = ((10 : ℤ) - 0 + 1).toNat ∧
        ∀ (cfg : Cfg) (comments : List Comment),
          ProcessComments cfg comments =
            processList cfg ⟨mkRows cfg.height cfg.bottomReserved, [], 0, false⟩ comments) :=
  ⟨by decide, c9_lane_grid 10 0 2 (by decide)⟩

/-! ## Reduction emits no more events (C4) -/

/-- The number of event lines one comment contributes when it is not
dropped by the allocator: 1 for an unfiltered int-mode comment, the
outcome of `WriteCommentBilibiliPositioned` for a positioned comment,
0 otherwise.  This count does not depend on the grid state. -/
def emitCount (cfg : Cfg) (c : Comment) : ℕ :=
  match c.pos with
  | .mode _ => if cfg.filters.any (fun f => f c.text) then 0 else 1
  | .bilipos =>
      match WriteCommentBilibiliPositioned cfg.jsonLoads cfg.width cfg.height c with
      | .ok (some _) => 1
      | _ => 0
  | .invalid => 0

/-- The exception outcome of one comment; it does not depend on the
grid state (only `WriteCommentBilibiliPositioned` can raise). -/
def stepErr (cfg : Cfg) (c : Comment) : Option PyExc :=
  match c.pos with
  | .bilipos =>
      match WriteCommentBilibiliPositioned cfg.jsonLoads cfg.width cfg.height c with
      | .error e => some e
      | _ => none
  | _ => none

lemma step_snd (cfg : Cfg) (st : St) (c : Comment) :
    (step cfg st c).2 = stepErr cfg c := by
  unfold step stepErr
  cases c.pos with
  | mode m =>
      by_cases hf : cfg.filters.any (fun f => f c.text) = true
      · simp [hf]
      · simp only [hf, Bool.false_eq_true, if_false]
        cases placeLoop st.rows c cfg.width cfg.height cfg.bottomReserved
            cfg.duration_marquee cfg.duration_still 0 with
        | placed r => simp
        | exhausted =>
            by_cases hr : cfg.reduced = true
            · simp [hr]
            · simp [hr]
  | bilipos =>
      cases WriteCommentBilibiliPositioned cfg.jsonLoads cfg.width cfg.height c with
      | ok ev => cases ev <;> simp
      | error e => simp
  | invalid => simp

lemma step_events_le (cfg : Cfg) (st : St) (c : Comment) :
    (step cfg st c).1.events.length ≤ st.events.length + emitCount cfg c := by
  unfold step emitCount
  cases c.pos with
  | mode m =>
      by_cases hf : cfg.filters.any (fun f => f c.text) = true
      · simp [hf]
      · simp only [hf, Bool.false_eq_true, if_false]
        cases placeLoop st.rows c cfg.width cfg.height cfg.bottomReserved
            cfg.duration_marquee cfg.duration_still 0 with
        | placed r => simp
        | exhausted =>
            by_cases hr : cfg.reduced = true
            · simp [hr]
            · simp [hr]
  | bilipos =>
      cases WriteCommentBilibiliPositioned cfg.jsonLoads cfg.width cfg.height c with
      | ok ev => cases ev <;> simp
      | error e => simp
  | invalid => simp

lemma step_events_eq_nonreduced (cfg : Cfg) (hred : cfg.reduced = false)
    (st : St) (c : Comment) :
    (step cfg st c).1.events.length = st.events.length + emitCount cfg c := by
  unfold step emitCount
  cases c.pos with
  | mode m =>
      by_cases hf : cfg.filters.any (fun f => f c.text) = true
      · simp [hf]
      · simp only [hf, Bool.false_eq_true, if_false]
        cases placeLoop st.rows c cfg.width cfg.height cfg.bottomReserved
            cfg.duration_marquee cfg.duration_still 0 with
        | placed r => simp
        | exhausted => simp [hred]
  | bilipos =>
      cases WriteCommentBilibiliPositioned cfg.jsonLoads cfg.width cfg.height c with
      | ok ev => cases ev <;> simp
      | error e => simp
  | invalid => simp

lemma step_error_events (cfg : Cfg) (st : St) (c : Comment) (e : PyExc)
    (he : (step cfg st c).2 = some e) :
    (step cfg st c).1.events = st.events := by
  rw [step_snd] at he
  unfold step
  unfold stepErr at he
  cases hp : c.pos with
  | mode m =>
      rw [hp] at he
      simp at he
  | bilipos =>
      rw [hp] at he
      cases hw : WriteCommentBilibiliPositioned cfg.jsonLoads cfg.width cfg.height c with
      | ok ev =>
          rw [hw] at he
          cases ev <;> simp at he
      | error e' => simp
  | invalid =>
      rw [hp] at he

lemma processList_count_le (cfg : Cfg) (hred : cfg.reduced = false) :
    ∀ (comments : List Comment) (stR stN : St),
      stR.events.length ≤ stN.events.length →
      (processList { cfg with reduced := true } stR comments).1.events.length ≤
        (processList cfg stN comments).1.events.length := by
  intro comments
  induction comments with
  | nil => intro stR stN h; exact h
  | cons c rest ih =>
      intro stR stN h
      have hcfgErr : stepErr { cfg with reduced := true } c = stepErr cfg c := rfl
      have hcfgEmit : emitCount { cfg with reduced := true } c = emitCount cfg c := rfl
      unfold processList
      rw [step_snd, step_snd, hcfgErr]
      cases he : stepErr cfg c with
      | none =>
          have hR : (step { cfg with reduced := true } stR c).1.events.length ≤
              stR.events.length + emitCount cfg c := by
            rw [← hcfgEmit]
            exact step_events_le _ _ _
          have hN : (step cfg stN c).1.events.length =
              stN.events.length + emitCount cfg c :=
            step_events_eq_nonreduced cfg hred stN c
          exact ih _ _ (by omega)
      | some e =>
          have hR : (step { cfg with reduced := true } stR c).1.events = stR.events :=
            step_error_events _ _ _ e (by rw [step_snd, hcfgErr, he])
          have hN : (step cfg stN c).1.events = stN.events :=
            step_error_events _ _ _ e (by rw [step_snd, he])
          simpa [hR, hN] using h

/-- **C4.**  For every configuration and comment list, the run with
reduction enabled emits at most as many event lines as the run with
reduction disabled: every regular comment emits exactly one event when
reduction is off (placed or force-placed) and at most one when it is
on, filtered and positioned comments behave identically in both runs,
and a run-aborting exception occurs at the same comment in both. -/
theorem c4_reduced_le (cfg : Cfg) (comments : List Comment) :
    (ProcessComments { cfg with reduced := true } comments).1.events.length ≤
      (ProcessComments { cfg with reduced := false } comments).1.events.length := by
  unfold ProcessComments
  have h := processList_count_le { cfg with reduced := false } rfl comments
    ⟨mkRows cfg.height cfg.bottomReserved, [], 0, false⟩
    ⟨mkRows cfg.height cfg.bottomReserved, [], 0, false⟩ le_rfl
  exact h

/-! ## Invalid positioned payloads (C5) -/

/-- `json.loads` stand-in for the C5 run: the payload
`[0,0,"1",null,"x"]` decodes to a five-element array whose `lifetime`
field (index 3) is JSON `null`; every other string fails to decode
(raising `json.JSONDecodeError`, a `ValueError`). -/
def c5JsonLoads : String → Except PyExc JsonVal := fun s =>
  if s = "[0,0,\"1\",null,\"x\"]" then
    .ok (.jarr [.jint 0, .jint 0, .jstr "1", .jnull, .jstr "x"])
  else .error .jsonDecodeError

/-- A plain scroll comment used around the failing positioned comment. -/
def c5Scroll (t : ℚ) (s : String) : Comment :=
  ⟨t, 0, 0, s, .mode 0, 1, 25, 1, 1⟩

/-- The failing positioned comment: payload `[0,0,"1",null,"x"]`. -/
def c5Bad : Comment :=
  ⟨1, 0, 1, "[0,0,\"1\",null,\"x\"]", .bilipos, 1, 25, 0, 0⟩

/-- A positioned comment whose payload does not decode at all. -/
def c5Undecodable : Comment :=
  ⟨1, 0, 2, "oops", .bilipos, 1, 25, 0, 0⟩

/-- **C5.**  Run of `[scroll, undecodable bilipos, bad bilipos, scroll]`
with stage 10×2: the undecodable payload is caught by
`except (IndexError, ValueError)` (one warning, zero events, run
continues), but the payload `[0,0,"1",null,"x"]` — decodable, with a
required numeric field (`lifetime`) that fails `float()` conversion —
raises `TypeError`, which the handler does not catch: the run aborts,
the last comment is never processed, and no warning is logged for the
aborting comment.  This contradicts the claim that such a comment is
dropped with a warning and the run always completes. -/
theorem c5_typeerror_aborts :
    (ProcessComments ⟨10, 2, 0, 5, 5, [], c5JsonLoads, false⟩
        [c5Scroll 0 "a", c5Undecodable, c5Bad, c5Scroll 9 "b"]).2 = some .typeError ∧
    (ProcessComments ⟨10, 2, 0, 5, 5, [], c5JsonLoads, false⟩
        [c5Scroll 0 "a", c5Undecodable, c5Bad, c5Scroll 9 "b"]).1.events
      = [.regular (c5Scroll 0 "a") 0] ∧
    (ProcessComments ⟨10, 2, 0, 5, 5, [], c5JsonLoads, false⟩
        [c5Scroll 0 "a", c5Undecodable, c5Bad, c5Scroll 9 "b"]).1.warns = 1 := by
  refine ⟨?_, ?_, ?_⟩ <;> with_unfolding_all decide

/-- The bilipos writer in isolation: the undecodable payload is
rejected gracefully, the null-lifetime payload raises `TypeError`. -/
example :
    (WriteCommentBilibiliPositioned c5JsonLoads 10 2 c5Undecodable
        matches .ok none) = True ∧
    (WriteCommentBilibiliPositioned c5JsonLoads 10 2 c5Bad
        matches .error .typeError) = True := by
  constructor <;> with_unfolding_all decide

/-! ## Static stacking never overlaps (C3): groundwork -/

/-- Row `ρ` lies in the marked span of a comment placed at `row`
(the rows `row, …, row + ⌈height⌉ - 1`). -/
def inSpan (c : Comment) (row ρ : ℕ) : Prop :=
  row ≤ ρ ∧ (ρ : ℤ) < (row : ℤ) + ⌈c.height⌉

instance (c : Comment) (row ρ : ℕ) : Decidable (inSpan c row ρ) :=
  inferInstanceAs (Decidable (row ≤ ρ ∧ (ρ : ℤ) < (row : ℤ) + ⌈c.height⌉))

/-- The cell of lane `g` at row `ρ` in a run state. -/
def stCell (st : St) (g ρ : ℕ) : Option Comment :=
  cell (st.rows.getD g []) ρ

/-- Counted rows are below `rowmax` and non-blocking (soundness of the
free-run scan, including through the `targetRow` cache, whose cached
verdict must itself be non-blocking). -/
lemma tfrGo_sound (grid : Grid) (blocks : Option Comment → Bool) (hq : ℚ) (rowmax : ℤ) :
    ∀ (fuel row res : ℕ) (target : Option Comment), blocks target = false →
      ∀ k, res + k < tfrGo grid blocks hq rowmax fuel row res target →
        ((row + k : ℤ) < rowmax ∧ blocks (cell grid (row + k)) = false) := by
  intro fuel
  induction fuel with
  | zero =>
      intro row res target _ k hk
      unfold tfrGo at hk
      omega
  | succ n ih =>
      intro row res target htarget k hk
      unfold tfrGo at hk
      by_cases hg : (row : ℤ) < rowmax ∧ (res : ℚ) < hq
      · rw [if_pos hg] at hk
        by_cases hne : target ≠ cell grid row
        · rw [if_pos hne] at hk
          by_cases hb : blocks (cell grid row) = true
          · rw [if_pos hb] at hk
            omega
          · rw [if_neg hb] at hk
            have hb' : blocks (cell grid row) = false := by simpa using hb
            cases k with
            | zero =>
                refine ⟨by simpa using hg.1, by simpa using hb'⟩
            | succ k' =>
                have := ih (row + 1) (res + 1) (cell grid row) hb' k' (by omega)
                constructor
                · have := this.1
                  omega
                · have h2 := this.2
                  have : row + 1 + k' = row + (k' + 1) := by omega
                  rwa [this] at h2
        · rw [if_neg hne] at hk
          have heq : target = cell grid row := not_not.mp hne
          cases k with
          | zero =>
              refine ⟨by simpa using hg.1, ?_⟩
              have hrr : row + 0 = row := by omega
              rw [hrr, ← heq]
              exact htarget
          | succ k' =>
              have := ih (row + 1) (res + 1) target htarget k' (by omega)
              constructor
              · have := this.1
                omega
              · have h2 := this.2
                have : row + 1 + k' = row + (k' + 1) := by omega
                rwa [this] at h2
      · rw [if_neg hg] at hk
        omega

/-- Soundness of `TestFreeRows` for a static-mode comment: every row of
a free run of length `res` starting at `row` is below the usable height
and, if occupied, its occupant `o` satisfies `o.time + ds ≤ c.time`. -/
lemma TestFreeRows_static_sound (rows : List Grid) (c : Comment) (row : ℕ)
    (width height bottomReserved : ℤ) (dm ds : ℚ) (m : Fin 4)
    (hpos : c.pos = .mode m) (hm : m.val = 1 ∨ m.val = 2) :
    ∀ k, k < TestFreeRows rows c row width height bottomReserved dm ds →
      ((row + k : ℤ) < height - bottomReserved ∧
        staticBlocks ds c (cell (rows.getD m.val []) (row + k)) = false) := by
  intro k hk
  unfold TestFreeRows at hk
  rw [hpos] at hk
  dsimp only at hk
  rw [if_pos hm] at hk
  unfold tfrLoop at hk
  exact tfrGo_sound (rows.getD m.val []) (staticBlocks ds c) c.height
    (height - bottomReserved) ((height - bottomReserved) - (row : ℤ)).toNat row 0 none rfl k
    (by omega)

/-- Cell-level description of `List.set`. -/
lemma cell_set (grid : Grid) (i : ℕ) (a : Option Comment) (ρ : ℕ) :
    cell (grid.set i a) ρ = if i = ρ ∧ ρ < grid.length then a else cell grid ρ := by
  unfold cell
  rw [List.getD_eq_getElem?_getD, List.getD_eq_getElem?_getD, List.getElem?_set]
  by_cases h1 : i = ρ
  · subst h1
    by_cases h2 : i < grid.length
    · rw [if_pos (⟨rfl, h2⟩ : i = i ∧ i < grid.length), if_pos (rfl : i = i), if_pos h2]
      rfl
    · rw [if_neg (show ¬ (i = i ∧ i < grid.length) from fun hc => h2 hc.2)]
      rw [if_pos (rfl : i = i), if_neg h2]
      have h3 : grid[i]? = none := by
        rw [List.getElem?_eq_none_iff]
        omega
      rw [h3]
  · rw [if_neg (show ¬ (i = ρ ∧ ρ < grid.length) from fun hc => h1 hc.1), if_neg h1]

/-- Cell-level description of the marking loop: cells in
`[i, i + k) ∩ [0, length)` hold the new comment, the rest are
unchanged. -/
lemma markLoop_cell (c : Comment) :
    ∀ (k : ℕ) (grid : Grid) (i ρ : ℕ),
      cell (markLoop c grid i k) ρ =
        if i ≤ ρ ∧ ρ < i + k ∧ ρ < grid.length then some c else cell grid ρ := by
  intro k
  induction k with
  | zero =>
      intro grid i ρ
      unfold markLoop
      have : ¬ (i ≤ ρ ∧ ρ < i + 0 ∧ ρ < grid.length) := by omega
      rw [if_neg this]
  | succ n ih =>
      intro grid i ρ
      unfold markLoop
      by_cases hlen : i < grid.length
      · rw [if_pos hlen, ih (grid.set i (some c)) (i + 1) ρ]
        rw [List.length_set, cell_set]
        by_cases h1 : i + 1 ≤ ρ ∧ ρ < i + 1 + n ∧ ρ < grid.length
        · rw [if_pos h1]
          have : i ≤ ρ ∧ ρ < i + (n + 1) ∧ ρ < grid.length := by omega
          rw [if_pos this]
        · rw [if_neg h1]
          by_cases h2 : i = ρ ∧ ρ < grid.length
          · rw [if_pos h2]
            have : i ≤ ρ ∧ ρ < i + (n + 1) ∧ ρ < grid.length := by omega
            rw [if_pos this]
          · rw [if_neg h2]
            have : ¬ (i ≤ ρ ∧ ρ < i + (n + 1) ∧ ρ < grid.length) := by omega
            rw [if_neg this]
      · rw [if_neg hlen]
        have : ¬ (i ≤ ρ ∧ ρ < i + (n + 1) ∧ ρ < grid.length) := by omega
        rw [if_neg this]

/-- `placeLoop` success invariant: the chosen row respects
`row ≤ rowmax` and the free run from it is at least the comment
height. -/
lemma placeGo_placed (rows : List Grid) (c : Comment) (width height bottomReserved : ℤ)
    (dm ds : ℚ) :
    ∀ (fuel row r : ℕ),
      placeGo rows c width height bottomReserved dm ds fuel row = .placed r →
      ((r : ℚ) ≤ (height : ℚ) - (bottomReserved : ℚ) - c.height ∧
        (TestFreeRows rows c r width height bottomReserved dm ds : ℚ) ≥ c.height) := by
  intro fuel
  induction fuel with
  | zero =>
      intro row r h
      exact absurd h (by unfold placeGo; simp)
  | succ n ih =>
      intro row r h
      unfold placeGo at h
      by_cases hg : (row : ℚ) ≤ (height : ℚ) - (bottomReserved : ℚ) - c.height
      · rw [if_pos hg] at h
        by_cases hfr : ((TestFreeRows rows c row width height bottomReserved dm ds : ℕ) : ℚ) ≥ c.height
        · rw [if_pos hfr] at h
          cases h
          exact ⟨hg, hfr⟩
        · rw [if_neg hfr] at h
          exact ih _ r h
      · rw [if_neg hg] at h
        cases h

lemma placeLoop_placed (rows : List Grid) (c : Comment) (width height bottomReserved : ℤ)
    (dm ds : ℚ) (row r : ℕ)
    (h : placeLoop rows c width height bottomReserved dm ds row = .placed r) :
    ((r : ℚ) ≤ (height : ℚ) - (bottomReserved : ℚ) - c.height ∧
      (TestFreeRows rows c r width height bottomReserved dm ds : ℚ) ≥ c.height) :=
  placeGo_placed rows c width height bottomReserved dm ds _ row r h

/-! ## Static stacking never overlaps (C3): the run invariant -/

lemma get?_append_single {α : Type} (l : List α) (e : α) (i : ℕ) :
    (l ++ [e]).get? i =
      if i < l.length then l.get? i else if i = l.length then some e else none := by
  by_cases h1 : i < l.length
  · rw [if_pos h1, List.get?_append h1]
  · rw [if_neg h1]
    by_cases h2 : i = l.length
    · subst h2
      rw [if_pos rfl, List.get?_concat_length]
    · rw [if_neg h2, List.get?_eq_none]
      simp
      omega

lemma markCommentRow_length (rows : List Grid) (c : Comment) (r : ℕ) :
    (MarkCommentRow rows c r).length = rows.length := by
  unfold MarkCommentRow
  cases c.pos <;> simp

lemma markCommentRow_getD_other (rows : List Grid) (c : Comment) (r : ℕ) (m : Fin 4)
    (hpos : c.pos = .mode m) (g : ℕ) (hg : g ≠ m.val) :
    (MarkCommentRow rows c r).getD g [] = rows.getD g [] := by
  unfold MarkCommentRow
  rw [hpos]
  rw [List.getD_eq_getElem?_getD, List.getD_eq_getElem?_getD, List.getElem?_set,
    if_neg (show ¬ (m.val : ℕ) = g from fun h => hg h.symm)]

lemma markCommentRow_getD_self (rows : List Grid) (c : Comment) (r : ℕ) (m : Fin 4)
    (hpos : c.pos = .mode m) (hlen : rows.length = 4) :
    (MarkCommentRow rows c r).getD m.val [] =
      markLoop c (rows.getD m.val []) r (Int.toNat ⌈c.height⌉) := by
  unfold MarkCommentRow
  rw [hpos]
  have hlt : (m.val : ℕ) < rows.length := by
    rw [hlen]
    exact m.isLt
  rw [List.getD_eq_getElem?_getD, List.getElem?_set, if_pos rfl, if_pos hlt]
  rw [List.getD_eq_getElem?_getD]
  rfl

/-- Every row of the marked span of a successful static placement was
verified free against the pre-placement grid, lies inside the lane
array, and afterwards holds the placed comment. -/
lemma placed_static_cells (rows : List Grid) (c : Comment)
    (width height bottomReserved : ℤ) (dm ds : ℚ) (m : Fin 4) (r : ℕ)
    (hpos : c.pos = .mode m) (hm : m.val = 1 ∨ m.val = 2)
    (hlen4 : rows.length = 4)
    (hglen : (rows.getD m.val []).length = (height - bottomReserved + 1).toNat)
    (hplace : placeLoop rows c width height bottomReserved dm ds 0 = .placed r)
    (ρ : ℕ) (hρ : inSpan c r ρ) :
    (ρ : ℤ) < height - bottomReserved ∧
    staticBlocks ds c (cell (rows.getD m.val []) ρ) = false ∧
    cell ((MarkCommentRow rows c r).getD m.val []) ρ = some c := by
  obtain ⟨hrow, hfr⟩ := placeLoop_placed rows c width height bottomReserved dm ds 0 r hplace
  have hceil : ⌈c.height⌉ ≤ (TestFreeRows rows c r width height bottomReserved dm ds : ℤ) :=
    Int.ceil_le.mpr (by exact_mod_cast hfr)
  obtain ⟨hle, hlt⟩ := hρ
  have hk : ρ - r < TestFreeRows rows c r width height bottomReserved dm ds := by omega
  have hsound := TestFreeRows_static_sound rows c r width height bottomReserved dm ds m
    hpos hm (ρ - r) hk
  have hρr : r + (ρ - r) = ρ := by omega
  have hs1 : (ρ : ℤ) < height - bottomReserved := by
    have := hsound.1
    omega
  have hs2 : staticBlocks ds c (cell (rows.getD m.val []) ρ) = false := by
    have := hsound.2
    rwa [hρr] at this
  refine ⟨hs1, hs2, ?_⟩
  rw [markCommentRow_getD_self rows c r m hpos hlen4, markLoop_cell]
  have hρlen : ρ < (rows.getD m.val []).length := by omega
  rw [if_pos ⟨hle, by omega, hρlen⟩]

/-- Cells outside the marked span are unchanged by a placement. -/
lemma mark_cell_unchanged (rows : List Grid) (c : Comment) (r : ℕ) (m : Fin 4)
    (hpos : c.pos = .mode m) (hlen4 : rows.length = 4)
    (ρ : ℕ) (hρ : ¬ inSpan c r ρ) :
    cell ((MarkCommentRow rows c r).getD m.val []) ρ = cell (rows.getD m.val []) ρ := by
  rw [markCommentRow_getD_self rows c r m hpos hlen4, markLoop_cell]
  rw [if_neg ?_]
  unfold inSpan at hρ
  intro hc
  exact hρ ⟨hc.1, by omega⟩

/-- Invariant piece 1: every already-emitted static event's span is
fully occupied, and each occupant either is the event's comment or
started no earlier than the end of its display window. -/
def EvtCov (ds : ℚ) (st : St) : Prop :=
  ∀ (m : Fin 4), (m.val = 1 ∨ m.val = 2) →
    ∀ (i : ℕ) (c : Comment) (r : ℕ),
      st.events.get? i = some (.regular c r) → c.pos = .mode m →
      ∀ ρ, inSpan c r ρ →
        ∃ o, stCell st m.val ρ = some o ∧ (o = c ∨ c.time + ds ≤ o.time)

/-- Invariant piece 2: every occupant of a static lane started no later
than any comment still to be processed. -/
def OccLe (st : St) (rest : List Comment) : Prop :=
  ∀ (m : Fin 4), (m.val = 1 ∨ m.val = 2) →
    ∀ (ρ : ℕ) (o : Comment), stCell st m.val ρ = some o →
      ∀ c ∈ rest, o.time ≤ c.time

/-- Invariant piece 3: the claimed property, for the events emitted so
far: two static events of the same mode with overlapping spans have
display windows in processing order. -/
def PairsOk (ds : ℚ) (st : St) : Prop :=
  ∀ (m : Fin 4), (m.val = 1 ∨ m.val = 2) →
    ∀ (i j : ℕ) (c1 : Comment) (r1 : ℕ) (c2 : Comment) (r2 : ℕ), i < j →
      st.events.get? i = some (.regular c1 r1) →
      st.events.get? j = some (.regular c2 r2) →
      c1.pos = .mode m → c2.pos = .mode m →
      (∃ ρ, inSpan c1 r1 ρ ∧ inSpan c2 r2 ρ) →
      c1.time + ds ≤ c2.time

/-- The lane arrays keep their size and count through the run. -/
def GridOk (cfg : Cfg) (st : St) : Prop :=
  st.rows.length = 4 ∧
    ∀ (m : Fin 4), (st.rows.getD m.val []).length =
      (cfg.height - cfg.bottomReserved + 1).toNat

/-- The full induction invariant for the no-overlap property. -/
def LayoutInv (cfg : Cfg) (st : St) (rest : List Comment) : Prop :=
  EvtCov cfg.duration_still st ∧ OccLe st rest ∧ PairsOk cfg.duration_still st ∧
    GridOk cfg st

lemma layoutInv_of_eq (cfg : Cfg) (st st' : St) (rest : List Comment)
    (hrows : st'.rows = st.rows) (hevents : st'.events = st.events)
    (h : LayoutInv cfg st rest) : LayoutInv cfg st' rest := by
  obtain ⟨hEv, hOcc, hPairs, hG⟩ := h
  refine ⟨?_, ?_, ?_, ?_⟩
  · intro m hm i c r hget hpos ρ hρ
    rw [hevents] at hget
    have := hEv m hm i c r hget hpos ρ hρ
    unfold stCell at this ⊢
    rwa [hrows]
  · intro m hm ρ o hcell c hc
    unfold stCell at hcell
    rw [hrows] at hcell
    exact hOcc m hm ρ o hcell c hc
  · intro m hm i j c1 r1 c2 r2 hij h1 h2 hp1 hp2 hsp
    rw [hevents] at h1 h2
    exact hPairs m hm i j c1 r1 c2 r2 hij h1 h2 hp1 hp2 hsp
  · unfold GridOk at hG ⊢
    rw [hrows]
    exact hG

lemma layoutInv_mono_rest (cfg : Cfg) (st : St) (c : Comment) (rest : List Comment)
    (h : LayoutInv cfg st (c :: rest)) : LayoutInv cfg st rest := by
  obtain ⟨hEv, hOcc, hPairs, hG⟩ := h
  exact ⟨hEv, fun m hm ρ o hcell c' hc' => hOcc m hm ρ o hcell c' (List.mem_cons_of_mem _ hc'),
    hPairs, hG⟩

lemma layoutInv_append_bilip (cfg : Cfg) (st : St) (rest : List Comment)
    (cb : Comment) (lt : ℚ) (h : LayoutInv cfg st rest) :
    LayoutInv cfg { st with events := st.events ++ [Event.bilip cb lt] } rest := by
  obtain ⟨hEv, hOcc, hPairs, hG⟩ := h
  refine ⟨?_, hOcc, ?_, hG⟩
  · intro m hm i c r hget hpos ρ hρ
    simp only [] at hget
    rw [get?_append_single] at hget
    by_cases h1 : i < st.events.length
    · rw [if_pos h1] at hget
      exact hEv m hm i c r hget hpos ρ hρ
    · rw [if_neg h1] at hget
      by_cases h2 : i = st.events.length
      · rw [if_pos h2] at hget
        exact absurd hget (by simp)
      · rw [if_neg h2] at hget
        exact absurd hget (by simp)
  · intro m hm i j c1 r1 c2 r2 hij h1 h2 hp1 hp2 hsp
    simp only [] at h1 h2
    rw [get?_append_single] at h1 h2
    by_cases hj : j < st.events.length
    · have hi : i < st.events.length := by omega
      rw [if_pos hj] at h2
      rw [if_pos hi] at h1
      exact hPairs m hm i j c1 r1 c2 r2 hij h1 h2 hp1 hp2 hsp
    · rw [if_neg hj] at h2
      by_cases hj2 : j = st.events.length
      · rw [if_pos hj2] at h2
        exact absurd h2 (by simp)
      · rw [if_neg hj2] at h2
        exact absurd h2 (by simp)

lemma markLoop_length (c : Comment) :
    ∀ (k : ℕ) (grid : Grid) (i : ℕ), (markLoop c grid i k).length = grid.length := by
  intro k
  induction k with
  | zero => intro grid i; rfl
  | succ n ih =>
      intro grid i
      unfold markLoop
      by_cases h : i < grid.length
      · rw [if_pos h, ih]
        simp
      · rw [if_neg h]

lemma gridOk_mark (cfg : Cfg) (st : St) (c : Comment) (r : ℕ) (ev : List Event)
    (w : ℕ) (fb : Bool) (hG : GridOk cfg st) :
    GridOk cfg ⟨MarkCommentRow st.rows c r, ev, w, fb⟩ := by
  obtain ⟨h4, hlen⟩ := hG
  constructor
  · simp only []
    rw [markCommentRow_length]
    exact h4
  · intro g
    simp only []
    cases hp : c.pos with
    | mode m =>
        by_cases hg : g.val = m.val
        · have hgm : g = m := Fin.val_injective hg
          subst hgm
          rw [markCommentRow_getD_self st.rows c r g hp h4, markLoop_length]
          exact hlen g
        · rw [markCommentRow_getD_other st.rows c r m hp g.val hg]
          exact hlen g
    | bilipos =>
        unfold MarkCommentRow
        rw [hp]
        exact hlen g
    | invalid =>
        unfold MarkCommentRow
        rw [hp]
        exact hlen g

/-- A free static cell's occupant has cleared the candidate's window. -/
lemma staticBlocks_false_occ (ds : ℚ) (c o : Comment) (oc : Option Comment)
    (hb : staticBlocks ds c oc = false) (ho : oc = some o) : o.time + ds ≤ c.time := by
  subst ho
  unfold staticBlocks at hb
  simp at hb
  exact hb

lemma layoutInv_place_scroll (cfg : Cfg) (st : St) (rest : List Comment) (c : Comment)
    (m : Fin 4) (r : ℕ) (hpos : c.pos = .mode m) (hm : m.val = 0 ∨ m.val = 3)
    (h : LayoutInv cfg st rest) :
    LayoutInv cfg
      { st with rows := MarkCommentRow st.rows c r,
                events := st.events ++ [Event.regular c r] } rest := by
  obtain ⟨hEv, hOcc, hPairs, hG⟩ := h
  have hcells : ∀ (m' : Fin 4), m'.val = 1 ∨ m'.val = 2 →
      (MarkCommentRow st.rows c r).getD m'.val [] = st.rows.getD m'.val [] := by
    intro m' hm'
    exact markCommentRow_getD_other st.rows c r m hpos m'.val (by omega)
  have hnotstatic : ∀ (m' : Fin 4), m'.val = 1 ∨ m'.val = 2 → c.pos ≠ .mode m' := by
    intro m' hm' hc
    rw [hpos] at hc
    have hmm : m = m' := by
      injection hc
    subst hmm
    omega
  refine ⟨?_, ?_, ?_, gridOk_mark cfg st c r _ _ _ ⟨hG.1, hG.2⟩⟩
  · intro m' hm' i c1 r1 hget hp1 ρ hρ
    simp only [] at hget
    rw [get?_append_single] at hget
    by_cases h1 : i < st.events.length
    · rw [if_pos h1] at hget
      obtain ⟨o, ho, hd⟩ := hEv m' hm' i c1 r1 hget hp1 ρ hρ
      refine ⟨o, ?_, hd⟩
      unfold stCell at ho ⊢
      simp only [] at ho ⊢
      rw [hcells m' hm']
      exact ho
    · rw [if_neg h1] at hget
      by_cases h2 : i = st.events.length
      · rw [if_pos h2] at hget
        have hce : c = c1 ∧ r = r1 := by simpa using hget
        exact absurd (hce.1 ▸ hp1) (hnotstatic m' hm')
      · rw [if_neg h2] at hget
        exact absurd hget (by simp)
  · intro m' hm' ρ o hcell c' hc'
    unfold stCell at hcell
    simp only [] at hcell
    rw [hcells m' hm'] at hcell
    exact hOcc m' hm' ρ o hcell c' hc'
  · intro m' hm' i j c1 r1 c2 r2 hij h1 h2 hp1 hp2 hsp
    simp only [] at h1 h2
    rw [get?_append_single] at h1 h2
    by_cases hj : j < st.events.length
    · have hi : i < st.events.length := by omega
      rw [if_pos hj] at h2
      rw [if_pos hi] at h1
      exact hPairs m' hm' i j c1 r1 c2 r2 hij h1 h2 hp1 hp2 hsp
    · rw [if_neg hj] at h2
      by_cases hj2 : j = st.events.length
      · rw [if_pos hj2] at h2
        have hce : c = c2 ∧ r = r2 := by simpa using h2
        exact absurd (hce.1 ▸ hp2) (hnotstatic m' hm')
      · rw [if_neg hj2] at h2
        exact absurd h2 (by simp)

lemma layoutInv_place_static (cfg : Cfg) (st : St) (rest : List Comment) (c : Comment)
    (m : Fin 4) (r : ℕ) (hpos : c.pos = .mode m) (hm : m.val = 1 ∨ m.val = 2)
    (hplace : placeLoop st.rows c cfg.width cfg.height cfg.bottomReserved
        cfg.duration_marquee cfg.duration_still 0 = .placed r)
    (hsorted : ∀ c' ∈ rest, c.time ≤ c'.time)
    (h : LayoutInv cfg st (c :: rest)) :
    LayoutInv cfg
      { st with rows := MarkCommentRow st.rows c r,
                events := st.events ++ [Event.regular c r] } rest := by
  obtain ⟨hEv, hOcc, hPairs, hG⟩ := h
  have hspan := fun ρ hρ => placed_static_cells st.rows c cfg.width cfg.height
    cfg.bottomReserved cfg.duration_marquee cfg.duration_still m r hpos hm hG.1 (hG.2 m)
    hplace ρ hρ
  have hunch := fun ρ hρ => mark_cell_unchanged st.rows c r m hpos hG.1 ρ hρ
  have hocc_le : ∀ ρ o, cell (st.rows.getD m.val []) ρ = some o → o.time ≤ c.time := by
    intro ρ o hcell
    exact hOcc m hm ρ o hcell c (List.mem_cons_self c rest)
  have hdom : ∀ (i : ℕ) (c1 : Comment) (r1 : ℕ),
      st.events.get? i = some (.regular c1 r1) → c1.pos = .mode m →
      ∀ ρ, inSpan c1 r1 ρ → inSpan c r ρ →
        c1.time + cfg.duration_still ≤ c.time := by
    intro i c1 r1 hget hp1 ρ hρ1 hρ2
    obtain ⟨o, ho, hd⟩ := hEv m hm i c1 r1 hget hp1 ρ hρ1
    have hfree := (hspan ρ hρ2).2.1
    have hoc : o.time + cfg.duration_still ≤ c.time :=
      staticBlocks_false_occ _ c o _ hfree ho
    rcases hd with rfl | hd
    · exact hoc
    · have := hocc_le ρ o ho
      linarith
  refine ⟨?_, ?_, ?_, gridOk_mark cfg st c r _ _ _ ⟨hG.1, hG.2⟩⟩
  · intro m' hm' i c1 r1 hget hp1 ρ hρ
    simp only [] at hget
    rw [get?_append_single] at hget
    by_cases hi : i < st.events.length
    · rw [if_pos hi] at hget
      by_cases hmm : m' = m
      · subst hmm
        by_cases hin : inSpan c r ρ
        · refine ⟨c, ?_, Or.inr (hdom i c1 r1 hget hp1 ρ hρ hin)⟩
          unfold stCell
          simp only []
          exact (hspan ρ hin).2.2
        · obtain ⟨o, ho, hd⟩ := hEv m' hm' i c1 r1 hget hp1 ρ hρ
          refine ⟨o, ?_, hd⟩
          unfold stCell at ho ⊢
          simp only [] at ho ⊢
          rw [hunch ρ hin]
          exact ho
      · obtain ⟨o, ho, hd⟩ := hEv m' hm' i c1 r1 hget hp1 ρ hρ
        refine ⟨o, ?_, hd⟩
        unfold stCell at ho ⊢
        simp only [] at ho ⊢
        rw [markCommentRow_getD_other st.rows c r m hpos m'.val
          (fun hv => hmm (Fin.val_injective hv))]
        exact ho
    · rw [if_neg hi] at hget
      by_cases h2 : i = st.events.length
      · rw [if_pos h2] at hget
        have hce : c = c1 ∧ r = r1 := by simpa using hget
        obtain ⟨hc1, hr1⟩ := hce
        subst hc1
        subst hr1
        have hmm : m = m' := by
          rw [hpos] at hp1
          injection hp1
        subst hmm
        refine ⟨c, ?_, Or.inl rfl⟩
        unfold stCell
        simp only []
        exact (hspan ρ hρ).2.2
      · rw [if_neg h2] at hget
        exact absurd hget (by simp)
  · intro m' hm' ρ o hcell c' hc'
    unfold stCell at hcell
    simp only [] at hcell
    by_cases hmm : m' = m
    · subst hmm
      by_cases hin : inSpan c r ρ
      · rw [(hspan ρ hin).2.2] at hcell
        have hoc : c = o := by simpa using hcell
        rw [← hoc]
        exact hsorted c' hc'
      · rw [hunch ρ hin] at hcell
        exact hOcc m' hm' ρ o hcell c' (List.mem_cons_of_mem _ hc')
    · rw [markCommentRow_getD_other st.rows c r m hpos m'.val
        (fun hv => hmm (Fin.val_injective hv))] at hcell
      exact hOcc m' hm' ρ o hcell c' (List.mem_cons_of_mem _ hc')
  · intro m' hm' i j c1 r1 c2 r2 hij h1 h2 hp1 hp2 hsp
    obtain ⟨ρ, hρ1, hρ2⟩ := hsp
    simp only [] at h1 h2
    rw [get?_append_single] at h1 h2
    by_cases hj : j < st.events.length
    · have hi : i < st.events.length := by omega
      rw [if_pos hj] at h2
      rw [if_pos hi] at h1
      exact hPairs m' hm' i j c1 r1 c2 r2 hij h1 h2 hp1 hp2 ⟨ρ, hρ1, hρ2⟩
    · rw [if_neg hj] at h2
      by_cases hj2 : j = st.events.length
      · rw [if_pos hj2] at h2
        have hce : c = c2 ∧ r = r2 := by simpa using h2
        obtain ⟨hc2, hr2⟩ := hce
        subst hc2
        subst hr2
        have hmm : m = m' := by
          rw [hpos] at hp2
          injection hp2
        subst hmm
        have hi : i < st.events.length := by omega
        rw [if_pos hi] at h1
        exact hdom i c1 r1 h1 hp1 ρ hρ1 hρ2
      · rw [if_neg hj2] at h2
        exact absurd h2 (by simp)

lemma step_preserves_inv (cfg : Cfg) (st : St) (c : Comment) (rest : List Comment)
    (hsorted : ∀ c' ∈ rest, c.time ≤ c'.time)
    (hInv : LayoutInv cfg st (c :: rest))
    (hfb : (step cfg st c).1.fallback = false) :
    LayoutInv cfg (step cfg st c).1 rest := by
  unfold step at hfb ⊢
  generalize hp : c.pos = cp at hfb ⊢
  cases cp with
  | mode m =>
      dsimp only at hfb ⊢
      by_cases hf : cfg.filters.any (fun f => f c.text) = true
      · rw [if_pos hf] at hfb ⊢
        exact layoutInv_mono_rest cfg st c rest hInv
      · rw [if_neg hf] at hfb ⊢
        generalize hpl : placeLoop st.rows c cfg.width cfg.height cfg.bottomReserved
          cfg.duration_marquee cfg.duration_still 0 = pres at hfb ⊢
        cases pres with
        | placed r =>
            dsimp only at hfb ⊢
            by_cases hmstatic : m.val = 1 ∨ m.val = 2
            · exact layoutInv_place_static cfg st rest c m r hp hmstatic hpl hsorted hInv
            · have hmscroll : m.val = 0 ∨ m.val = 3 := by omega
              exact layoutInv_place_scroll cfg st rest c m r hp hmscroll
                (layoutInv_mono_rest cfg st c rest hInv)
        | exhausted =>
            by_cases hr : cfg.reduced = true
            · rw [if_pos hr] at hfb ⊢
              exact layoutInv_mono_rest cfg st c rest hInv
            · rw [if_neg hr] at hfb
              dsimp only at hfb
              exact absurd hfb (by simp)
  | bilipos =>
      dsimp only at hfb ⊢
      generalize hw : WriteCommentBilibiliPositioned cfg.jsonLoads cfg.width cfg.height c
        = wres at hfb ⊢
      cases wres with
      | ok ev =>
          cases ev with
          | some e =>
              obtain ⟨lt, rfl⟩ := writeBili_shape cfg.jsonLoads cfg.width cfg.height c e hw
              dsimp only at hfb ⊢
              exact layoutInv_append_bilip cfg st rest c lt
                (layoutInv_mono_rest cfg st c rest hInv)
          | none =>
              dsimp only at hfb ⊢
              exact layoutInv_of_eq cfg st _ rest rfl rfl
                (layoutInv_mono_rest cfg st c rest hInv)
      | error e =>
          dsimp only at hfb ⊢
          exact layoutInv_mono_rest cfg st c rest hInv
  | invalid =>
      dsimp only at hfb ⊢
      exact layoutInv_of_eq cfg st _ rest rfl rfl
        (layoutInv_mono_rest cfg st c rest hInv)

lemma step_fallback_mono (cfg : Cfg) (st : St) (c : Comment)
    (h : st.fallback = true) : (step cfg st c).1.fallback = true := by
  unfold step
  cases hp : c.pos with
  | mode m =>
      dsimp only
      by_cases hf : cfg.filters.any (fun f => f c.text) = true
      · rw [if_pos hf]
        exact h
      · rw [if_neg hf]
        cases placeLoop st.rows c cfg.width cfg.height cfg.bottomReserved
            cfg.duration_marquee cfg.duration_still 0 with
        | placed r => exact h
        | exhausted =>
            by_cases hr : cfg.reduced = true
            · rw [if_pos hr]
              exact h
            · rw [if_neg hr]
  | bilipos =>
      dsimp only
      cases WriteCommentBilibiliPositioned cfg.jsonLoads cfg.width cfg.height c with
      | ok ev => cases ev <;> exact h
      | error e => exact h
  | invalid => exact h

lemma processList_fallback_mono (cfg : Cfg) :
    ∀ (comments : List Comment) (st : St), st.fallback = true →
      (processList cfg st comments).1.fallback = true := by
  intro comments
  induction comments with
  | nil => intro st h; exact h
  | cons c rest ih =>
      intro st h
      unfold processList
      cases he : (step cfg st c).2 with
      | none => exact ih _ (step_fallback_mono cfg st c h)
      | some e => exact step_fallback_mono cfg st c h

lemma processList_pairs (cfg : Cfg) :
    ∀ (comments : List Comment) (st : St),
      comments.Pairwise (fun a b => a.time ≤ b.time) →
      LayoutInv cfg st comments →
      (processList cfg st comments).1.fallback = false →
      PairsOk cfg.duration_still (processList cfg st comments).1 := by
  intro comments
  induction comments with
  | nil =>
      intro st _ hInv _
      exact hInv.2.2.1
  | cons c rest ih =>
      intro st hsort hInv hfb
      have hsorted : ∀ c' ∈ rest, c.time ≤ c'.time :=
        (List.pairwise_cons.mp hsort).1
      by_cases hfb' : (step cfg st c).1.fallback = true
      · exfalso
        unfold processList at hfb
        cases he : (step cfg st c).2 with
        | none =>
            rw [he] at hfb
            dsimp only at hfb
            have h2 := processList_fallback_mono cfg rest _ hfb'
            rw [hfb] at h2
            exact Bool.false_ne_true h2
        | some e =>
            rw [he] at hfb
            dsimp only at hfb
            rw [hfb] at hfb'
            exact Bool.false_ne_true hfb'
      · have hfb'' : (step cfg st c).1.fallback = false := by
          simpa using hfb'
        have hInv' := step_preserves_inv cfg st c rest hsorted hInv hfb''
        unfold processList at hfb ⊢
        cases he : (step cfg st c).2 with
        | none =>
            rw [he] at hfb
            dsimp only at hfb
            exact ih _ (List.pairwise_cons.mp hsort).2 hInv' hfb
        | some e =>
            exact hInv'.2.2.1

lemma cell_replicate_none (n ρ : ℕ) :
    cell (List.replicate n (none : Option Comment)) ρ = none := by
  unfold cell
  rw [List.getD_eq_getElem?_getD, List.getElem?_replicate]
  split <;> rfl

lemma mkRows_getD (height bottomReserved : ℤ) (g : ℕ) (hg : g < 4) :
    (mkRows height bottomReserved).getD g [] =
      List.replicate (height - bottomReserved + 1).toNat none := by
  unfold mkRows
  rw [List.getD_eq_getElem?_getD, List.getElem?_replicate, if_pos hg]
  rfl

lemma layoutInv_init (cfg : Cfg) (comments : List Comment) :
    LayoutInv cfg ⟨mkRows cfg.height cfg.bottomReserved, [], 0, false⟩ comments := by
  refine ⟨?_, ?_, ?_, ?_, ?_⟩
  · intro m hm i c r hget
    simp at hget
  · intro m hm ρ o hcell
    exfalso
    unfold stCell at hcell
    simp only [] at hcell
    rw [mkRows_getD cfg.height cfg.bottomReserved m.val m.isLt, cell_replicate_none] at hcell
    exact Option.noConfusion hcell
  · intro m hm i j c1 r1 c2 r2 hij h1 h2
    simp at h1
  · simp only []
    unfold mkRows
    simp
  · intro m
    simp only []
    rw [mkRows_getD cfg.height cfg.bottomReserved m.val m.isLt, List.length_replicate]

/-- **C3.**  In a run of `ProcessComments` on comments sorted by
appearance time in which no comment was force-placed through the
fallback path, any two distinct static events (both `Bottom`-mode 1 or
both `Top`-mode 2) whose marked row spans share a row have
non-intersecting display windows
`[appearance_time, appearance_time + duration_still)`. -/
theorem c3_static_no_overlap (cfg : Cfg) (comments : List Comment)
    (hsort : comments.Pairwise (fun a b => a.time ≤ b.time))
    (hfb : (ProcessComments cfg comments).1.fallback = false)
    (m : Fin 4) (hm : m.val = 1 ∨ m.val = 2)
    (i j : ℕ) (hij : i ≠ j) (c1 : Comment) (r1 : ℕ) (c2 : Comment) (r2 : ℕ)
    (h1 : (ProcessComments cfg comments).1.events.get? i = some (.regular c1 r1))
    (h2 : (ProcessComments cfg comments).1.events.get? j = some (.regular c2 r2))
    (hp1 : c1.pos = .mode m) (hp2 : c2.pos = .mode m)
    (ρ : ℕ) (hρ1 : inSpan c1 r1 ρ) (hρ2 : inSpan c2 r2 ρ) :
    ¬ (c1.time < c2.time + cfg.duration_still ∧
        c2.time < c1.time + cfg.duration_still) := by
  have hpairs : PairsOk cfg.duration_still (ProcessComments cfg comments).1 := by
    unfold ProcessComments at hfb ⊢
    exact processList_pairs cfg comments _ hsort (layoutInv_init cfg comments) hfb
  rintro ⟨ha, hb⟩
  rcases Nat.lt_or_ge i j with hij' | hij'
  · have := hpairs m hm i j c1 r1 c2 r2 hij' h1 h2 hp1 hp2 ⟨ρ, hρ1, hρ2⟩
    linarith
  · have hji : j < i := by omega
    have := hpairs m hm j i c2 r2 c1 r1 hji h2 h1 hp2 hp1 ⟨ρ, hρ2, hρ1⟩
    linarith

/-- A Top-mode comment used by the C3 witness run. -/
def c3w (t : ℚ) (s : String) : Comment := ⟨t, 0, 0, s, .mode 2, 1, 25, 1, 1⟩

/-- Configuration of the C3 witness run: stage 10×2, durations 5. -/
def c3cfg : Cfg := ⟨10, 2, 0, 5, 5, [], fun _ => .error .jsonDecodeError, false⟩

example : (ProcessComments c3cfg [c3w 0 "a", c3w 10 "b"]).1.events
    = [.regular (c3w 0 "a") 0, .regular (c3w 10 "b") 0] := by
  with_unfolding_all decide

/-- Witness for `c3_static_no_overlap`: two Top comments at times 0 and
10 both land in row 0 (the second is admitted because the first's
window has ended), and the theorem yields the disjointness of their
windows. -/
theorem c3_static_no_overlap_witness :
    ¬ ((c3w 0 "a").time < (c3w 10 "b").time + c3cfg.duration_still ∧
        (c3w 10 "b").time < (c3w 0 "a").time + c3cfg.duration_still) :=
  c3_static_no_overlap c3cfg [c3w 0 "a", c3w 10 "b"]
    (by with_unfolding_all decide)
    (by with_unfolding_all decide)
    2 (Or.inr rfl)
    0 1 (by decide)
    (c3w 0 "a") 0 (c3w 10 "b") 0
    (by with_unfolding_all decide)
    (by with_unfolding_all decide)
    rfl rfl
    0 (by with_unfolding_all decide) (by with_unfolding_all decide)

/-! ## Flash rotation projection (C6) -/

/-- Python float `%`: the result takes the sign of the modulus. -/
noncomputable def pyModR (x m : ℝ) : ℝ := x - m * ⌊x / m⌋

/-- `WrapAngle(deg) = 180 - ((180 - deg) % 360)`, mapping any angle
into `(-180, 180]`. -/
noncomputable def WrapAngle (deg : ℝ) : ℝ := 180 - pyModR (180 - deg) 360

/-- `math.atan2(y, x)`, the argument of the complex number `x + y·i`. -/
noncomputable def atan2 (y x : ℝ) : ℝ := Complex.arg ⟨x, y⟩

/-- The wrapped and singularity-nudged rotation angles of
`ConvertFlashRotation`, in radians: `rotY`/`rotZ` wrapped into
`(-180, 180]`, `±90` nudged to `89`/`-91`, then scaled by `π/180`. -/
noncomputable def flashAngles (rotY rotZ : ℝ) : ℝ × ℝ :=
  let rotY1 := WrapAngle rotY
  let rotZ1 := WrapAngle rotZ
  ((if rotY1 = 90 ∨ rotY1 = -90 then rotY1 - 1 else rotY1) * Real.pi / 180,
    rotZ1 * Real.pi / 180)

/-- The pre-projection anchor abscissa `trX` of `ConvertFlashRotation`. -/
noncomputable def flashTrX (rotY rotZ X Y width height : ℝ) : ℝ :=
  let a := flashAngles rotY rotZ
  (X * Real.cos a.2 + Y * Real.sin a.2) / Real.cos a.1
    + (1 - Real.cos a.2 / Real.cos a.1) * width / 2
    - Real.sin a.2 / Real.cos a.1 * height / 2

/-- The pre-projection anchor ordinate `trY` of `ConvertFlashRotation`. -/
noncomputable def flashTrY (rotY rotZ X Y width height : ℝ) : ℝ :=
  let a := flashAngles rotY rotZ
  Y * Real.cos a.2 - X * Real.sin a.2 + Real.sin a.2 * width / 2
    + (1 - Real.cos a.2) * height / 2

/-- The depth `trZ = (trX - width/2) * sin(rotY)` of
`ConvertFlashRotation`. -/
noncomputable def flashTrZ (rotY rotZ X Y width height : ℝ) : ℝ :=
  (flashTrX rotY rotZ X Y width height - width / 2) *
    Real.sin (flashAngles rotY rotZ).1

/-- The perspective scale factor of `ConvertFlashRotation`:
`FOV / (FOV + trZ)` with `FOV = width * tan(2π/9) / 2` (the source's
`width * math.tan(2 * math.pi / 9.0) / 2`; `2π/9 rad = 40°`), and the
`ZeroDivisionError` fallback 1 when `FOV + trZ` is zero. -/
noncomputable def flashScaleXY (rotY rotZ X Y width height : ℝ) : ℝ :=
  let FOV := width * Real.tan (2 * Real.pi / 9) / 2
  let trZ := flashTrZ rotY rotZ X Y width height
  if FOV + trZ = 0 then 1 else FOV / (FOV + trZ)

/-- `ConvertFlashRotation(rotY, rotZ, X, Y, width, height)` (source
lines 215-255): result
`(transX, transY, rotX, rotY, rotZ, scaleX, scaleY)`. -/
noncomputable def ConvertFlashRotation (rotY rotZ X Y width height : ℝ) :
    ℝ × ℝ × ℝ × ℝ × ℝ × ℝ × ℝ :=
  let rotY1 := WrapAngle rotY
  let rotZ1 := WrapAngle rotZ
  let rotY2 := if rotY1 = 90 ∨ rotY1 = -90 then rotY1 - 1 else rotY1
  let a := flashAngles rotY rotZ
  let outs :=
    if rotY2 = 0 ∨ rotZ1 = 0 then
      ((0 : ℝ), -rotY2, -rotZ1)
    else
      (Real.arcsin (Real.sin a.1 * Real.sin a.2) * 180 / Real.pi,
        atan2 (-(Real.sin a.1) * Real.cos a.2) (Real.cos a.1) * 180 / Real.pi,
        atan2 (-(Real.cos a.1) * Real.sin a.2) (Real.cos a.2) * 180 / Real.pi)
  let trX := flashTrX rotY rotZ X Y width height
  let trY := flashTrY rotY rotZ X Y width height
  let scaleXY := flashScaleXY rotY rotZ X Y width height
  let trX2 := (trX - width / 2) * scaleXY + width / 2
  let trY2 := (trY - height / 2) * scaleXY + height / 2
  let final := if scaleXY < 0 then (-scaleXY, outs.1 + 180, outs.2.1 + 180)
    else (scaleXY, outs.1, outs.2.1)
  (trX2, trY2, WrapAngle final.2.1, WrapAngle final.2.2, WrapAngle outs.2.2,
    final.1 * 100, final.1 * 100)

/-- Spec-side definition (from the claim's words): the scale factor
`FOV / (FOV + depth)` with `FOV = width * tan(40°)`. -/
noncomputable def specC6Scale (rotY rotZ X Y width height : ℝ) : ℝ :=
  (width * Real.tan (40 * Real.pi / 180)) /
    (width * Real.tan (40 * Real.pi / 180) + flashTrZ rotY rotZ X Y width height)

lemma wrapAngle_40 : WrapAngle 40 = 40 := by
  unfold WrapAngle pyModR
  have h : ⌊(180 - 40 : ℝ) / 360⌋ = 0 := by
    rw [Int.floor_eq_zero_iff, Set.mem_Ico]
    constructor <;> norm_num
  rw [h]
  norm_num

lemma wrapAngle_0 : WrapAngle 0 = 0 := by
  unfold WrapAngle pyModR
  have h : ⌊(180 - 0 : ℝ) / 360⌋ = 0 := by
    rw [Int.floor_eq_zero_iff, Set.mem_Ico]
    constructor <;> norm_num
  rw [h]
  norm_num

lemma cos_two_pi_ninths_pos : 0 < Real.cos (2 * Real.pi / 9) := by
  apply Real.cos_pos_of_mem_Ioo
  rw [Set.mem_Ioo]
  constructor <;> nlinarith [Real.pi_pos]

lemma tan_two_pi_ninths_pos : 0 < Real.tan (2 * Real.pi / 9) := by
  apply Real.tan_pos_of_pos_of_lt_pi_div_two <;> nlinarith [Real.pi_pos]

lemma c6_trZ_value : flashTrZ 40 0 (3/2) 0 1 0 = Real.tan (2 * Real.pi / 9) := by
  unfold flashTrZ flashTrX flashAngles
  rw [wrapAngle_40, wrapAngle_0]
  dsimp only
  rw [if_neg (by norm_num : ¬ ((40 : ℝ) = 90 ∨ (40 : ℝ) = -90))]
  have h9 : (40 : ℝ) * Real.pi / 180 = 2 * Real.pi / 9 := by ring
  have hz : (0 : ℝ) * Real.pi / 180 = 0 := by ring
  rw [h9, hz, Real.cos_zero, Real.sin_zero, Real.tan_eq_sin_div_cos]
  have hc : Real.cos (2 * Real.pi / 9) ≠ 0 := ne_of_gt cos_two_pi_ninths_pos
  field_simp
  ring

/-- **C6, counterexample.**  At input `(rotY, rotZ, X, Y, width,
height) = (40, 0, 3/2, 0, 1, 0)` the depth is `tan(2π/9) = tan 40°`,
and the scale factor computed by the code,
`(w·tan40°/2) / (w·tan40°/2 + depth) = 1/3`, differs from the claimed
`(w·tan40°) / (w·tan40° + depth) = 1/2`: the claim's `FOV` misses the
`/2` of the source's `width * math.tan(2*math.pi/9.0) / 2`. -/
theorem c6_counterexample :
    flashScaleXY 40 0 (3/2) 0 1 0 = 1/3 ∧
      specC6Scale 40 0 (3/2) 0 1 0 = 1/2 ∧
      specC6Scale 40 0 (3/2) 0 1 0 ≠ flashScaleXY 40 0 (3/2) 0 1 0 := by
  have hT := tan_two_pi_ninths_pos
  have h40 : (40 : ℝ) * Real.pi / 180 = 2 * Real.pi / 9 := by ring
  have hact : flashScaleXY 40 0 (3/2) 0 1 0 = 1/3 := by
    unfold flashScaleXY
    rw [c6_trZ_value]
    rw [if_neg (by nlinarith : ¬ ((1 : ℝ) * Real.tan (2 * Real.pi / 9) / 2 +
      Real.tan (2 * Real.pi / 9) = 0))]
    field_simp
    ring
  have hspec : specC6Scale 40 0 (3/2) 0 1 0 = 1/2 := by
    unfold specC6Scale
    rw [c6_trZ_value, h40]
    field_simp
    ring
  refine ⟨hact, hspec, ?_⟩
  rw [hact, hspec]
  norm_num

/-- **C6, amended.**  In `ConvertFlashRotation`, whenever `FOV + depth`
is non-zero, the perspective scale factor is `FOV / (FOV + depth)` with
`FOV = width * tan(2π/9) / 2 = width * tan(40°) / 2` (not
`width * tan(40°)`), and it is the factor applied to the anchor point
relative to the stage center. -/
theorem c6_fov_scale (rotY rotZ X Y width height : ℝ)
    (h : width * Real.tan (2 * Real.pi / 9) / 2 +
        flashTrZ rotY rotZ X Y width height ≠ 0) :
    flashScaleXY rotY rotZ X Y width height =
      (width * Real.tan (2 * Real.pi / 9) / 2) /
        (width * Real.tan (2 * Real.pi / 9) / 2 +
          flashTrZ rotY rotZ X Y width height) ∧
    (ConvertFlashRotation rotY rotZ X Y width height).1 =
      (flashTrX rotY rotZ X Y width height - width / 2) *
        flashScaleXY rotY rotZ X Y width height + width / 2 ∧
    (ConvertFlashRotation rotY rotZ X Y width height).2.1 =
      (flashTrY rotY rotZ X Y width height - height / 2) *
        flashScaleXY rotY rotZ X Y width height + height / 2 := by
  refine ⟨?_, rfl, rfl⟩
  unfold flashScaleXY
  rw [if_neg h]

lemma c6_trZ_zero : flashTrZ 0 0 0 0 1 1 = 0 := by
  unfold flashTrZ flashAngles
  rw [wrapAngle_0]
  dsimp only
  rw [if_neg (by norm_num : ¬ ((0 : ℝ) = 90 ∨ (0 : ℝ) = -90))]
  have hz : (0 : ℝ) * Real.pi / 180 = 0 := by ring
  rw [hz, Real.sin_zero, mul_zero]

/-- Witness for `c6_fov_scale` at the identity rotation. -/
theorem c6_fov_scale_witness :
    flashScaleXY 0 0 0 0 1 1 =
      (1 * Real.tan (2 * Real.pi / 9) / 2) /
        (1 * Real.tan (2 * Real.pi / 9) / 2 + flashTrZ 0 0 0 0 1 1) ∧
    (ConvertFlashRotation 0 0 0 0 1 1).1 =
      (flashTrX 0 0 0 0 1 1 - 1 / 2) * flashScaleXY 0 0 0 0 1 1 + 1 / 2 ∧
    (ConvertFlashRotation 0 0 0 0 1 1).2.1 =
      (flashTrY 0 0 0 0 1 1 - 1 / 2) * flashScaleXY 0 0 0 0 1 1 + 1 / 2 :=
  c6_fov_scale 0 0 0 0 1 1 (by
    rw [c6_trZ_zero]
    have := tan_two_pi_ninths_pos
    nlinarith)
